import Mathlib

/-!
Shallow embedding of the pawndropper chess engine core (bitboard position,
magic sliding-attack tables, legal move generator, Zobrist hashing and
threefold-repetition tracking, and the negamax/quiescence search), translated
from the Rust sources, together with theorems settling the frozen claims.

Machine integers: Rust `u64` values are modelled as `Nat`, with `% 2^64`
(written as `&&& U64_MASK`) inserted exactly where the Rust code wraps
(`wrapping_mul` in the magic index).  Rust `i64` intermediate arithmetic is
modelled with `Int`.  Imperative loops over set bits
(`while bb != 0 { let sq = bb.trailing_zeros(); ...; bb &= bb - (1 << sq) }`)
are modelled by the fuel-bounded `foldBits` combinator below.
-/

set_option maxRecDepth 20000

namespace Pawndropper

/-- Mask of the low 64 bits (`u64::MAX`). -/
def U64_MASK : Nat := 2 ^ 64 - 1

/-- Bitwise complement within a 64-bit word (Rust `!x` on a `u64`). -/
def not64 (x : Nat) : Nat := Nat.xor x U64_MASK

/-- Helper for `ctz64`: scan bit positions upward, fuel-bounded. -/
def ctzAux : Nat → Nat → Nat → Nat
  | 0, i, _ => i
  | fuel+1, i, x => if x.testBit i then i else ctzAux fuel (i+1) x

/-- Rust `u64::trailing_zeros`: index of the least significant set bit,
64 when the input is zero (as for `0u64.trailing_zeros()`). -/
def ctz64 (x : Nat) : Nat := ctzAux 64 0 x

/-- Helper for `msb64`: scan bit positions downward. -/
def msbAux : Nat → Nat → Nat
  | 0, _ => 0
  | fuel+1, x => if x.testBit fuel then fuel else msbAux fuel x

/-- Rust `u64::BITS - 1 - x.leading_zeros()`: index of the most significant
set bit of a nonzero `u64` (the sources only apply it to nonzero values). -/
def msb64 (x : Nat) : Nat := msbAux 64 x

/-- Fuel-bounded iteration over the set bits of a bitboard, lowest first:
the Rust pattern
`while bb != 0 { let sq = bb.trailing_zeros(); ...; bb &= bb - (1 << sq) }`. -/
def foldBitsAux {α : Type} : Nat → (α → Nat → α) → α → Nat → α
  | 0, _, acc, _ => acc
  | fuel+1, f, acc, bb =>
    if bb = 0 then acc
    else
      let sq := ctz64 bb
      foldBitsAux fuel f (f acc sq) (Nat.land bb (bb - (1 <<< sq)))

/-- Fold over the set bits of a (64-bit) bitboard, lowest first. -/
def foldBits {α : Type} (f : α → Nat → α) (init : α) (bb : Nat) : α :=
  foldBitsAux 64 f init bb

/-- Rust `u64::count_ones`, via the set-bit fold. -/
def count_ones (x : Nat) : Nat := foldBits (fun n _ => n + 1) 0 x

/-! ### Sides, pieces, moves (`board.rs`, `move.rs`) -/

/-- The two sides, encoded 0/1 for array indexing as in the source. -/
inductive Side where
  | White
  | Black
deriving DecidableEq

/-- Numeric encoding of a side (`side as usize`). -/
def Side.idx : Side → Nat
  | .White => 0
  | .Black => 1

/-- `Side::VALUES` iteration order. -/
def Side.VALUES : List Side := [.White, .Black]

/-- `Side::opposite` (`VALUES[1 - self as usize]`). -/
def Side.opposite : Side → Side
  | .White => .Black
  | .Black => .White

/-- The six piece kinds, encoded 0..5 as in the source. -/
inductive Piece where
  | Pawn
  | Knight
  | Bishop
  | Rook
  | Queen
  | King
deriving DecidableEq

/-- Numeric encoding of a piece (`piece as usize`). -/
def Piece.idx : Piece → Nat
  | .Pawn => 0
  | .Knight => 1
  | .Bishop => 2
  | .Rook => 3
  | .Queen => 4
  | .King => 5

/-- `Piece::VALUES` iteration order. -/
def Piece.VALUES : List Piece := [.Pawn, .Knight, .Bishop, .Rook, .Queen, .King]

/-- `Piece::ALL_BUT_KING` iteration order. -/
def Piece.ALL_BUT_KING : List Piece := [.Pawn, .Knight, .Bishop, .Rook, .Queen]

/-- `Piece::PROMOTION_PIECES`. -/
def Piece.PROMOTION_PIECES : List Piece := [.Knight, .Bishop, .Rook, .Queen]

/-- `Piece::is_slider`: sliders are grouped in the piece enum,
bishop (2), rook (3), queen (4). -/
def Piece.is_slider (p : Piece) : Bool := decide (p.idx > 1 ∧ p.idx < 5)

/-- The tagged move type of `move.rs`. -/
inductive MoveType where
  | Quiet
  | EnPassantCapture (captured : Piece)
  | Capture (captured : Piece)
  | CastleLong
  | CastleShort
  | Promotion (promoted : Piece)
  | CapturePromotion (captured : Piece) (promoted : Piece)
deriving DecidableEq

/-- Draw reasons of `move.rs`. -/
inductive DrawReason where
  | FiftyMoveRule
  | InsufficientMaterial
  | ThreeFoldRepetition
  | Stalemate
deriving DecidableEq

/-- Move results of `move.rs`. -/
inductive MoveResult where
  | Check
  | Checkmate
  | Draw (reason : DrawReason)
deriving DecidableEq

/-- The `Move` aggregate of `move.rs`. -/
structure Move where
  from_square : Nat
  to_square : Nat
  move_type : MoveType
  piece : Piece
  side : Side
deriving DecidableEq

/-- `NULL_MOVE` sentinel of `move.rs`. -/
def NULL_MOVE : Move := ⟨100, 100, .Quiet, .Pawn, .White⟩

/-- `Move::is_quiet`. -/
def Move.is_quiet (m : Move) : Bool :=
  match m.move_type with
  | .Quiet | .Promotion _ => true
  | _ => false

/-- `Move::is_capture`. -/
def Move.is_capture (m : Move) : Bool :=
  match m.move_type with
  | .Capture _ | .CapturePromotion _ _ | .EnPassantCapture _ => true
  | _ => false

/-- `Move::is_promotion`. -/
def Move.is_promotion (m : Move) : Bool :=
  match m.move_type with
  | .Promotion _ | .CapturePromotion _ _ => true
  | _ => false

/-! ### Precomputed move bitboards and rays (`move_bitboards.rs`) -/

/-- `file(square) = square % 8`. -/
def file (square : Nat) : Nat := square % 8

/-- `rank(square) = square / 8`. -/
def rank (square : Nat) : Nat := square / 8

/-- The eight ray directions, in the source's enum order. -/
inductive RayDirection where
  | North
  | East
  | South
  | West
  | NorthEast
  | SouthEast
  | SouthWest
  | NorthWest
deriving DecidableEq

/-- Rook rank/file rays of `init_rook_moves`: `for i in 1..=n` loops. -/
def rayWest (sq : Nat) : Nat :=
  (List.range (8 - 1 - file sq)).foldl (fun bb i => bb ||| (1 <<< (sq + (i+1)))) 0

/-- East ray: `for i in 1..=file`. -/
def rayEast (sq : Nat) : Nat :=
  (List.range (file sq)).foldl (fun bb i => bb ||| (1 <<< (sq - (i+1)))) 0

/-- North ray: `for i in 1..=(7 - rank)`. -/
def rayNorth (sq : Nat) : Nat :=
  (List.range (8 - 1 - rank sq)).foldl (fun bb i => bb ||| (1 <<< (sq + (i+1) * 8))) 0

/-- South ray: `for i in 1..=rank`. -/
def raySouth (sq : Nat) : Nat :=
  (List.range (rank sq)).foldl (fun bb i => bb ||| (1 <<< (sq - (i+1) * 8))) 0

/-- Diagonal ray while-loop of `init_bishop_moves`: walk from `idx` by `step`
while the index stays on the 0..63 board and `cond i` holds, setting bits. -/
def diagRayAux : Nat → Int → Int → Nat → (Nat → Bool) → Nat → Nat
  | 0, _, _, _, _, bb => bb
  | fuel+1, idx, step, i, cond, bb =>
    if 0 ≤ idx ∧ idx ≤ 63 ∧ cond i then
      diagRayAux fuel (idx + step) step (i+1) cond (bb ||| (1 <<< idx.toNat))
    else bb

/-- The loop the source labels North-west (step `+9`, bounded by `i < 8 - file`). -/
def rayNorthWest (sq : Nat) : Nat :=
  if rank sq < 7 ∧ file sq < 7 then
    diagRayAux 8 ((sq : Int) + 9) 9 1 (fun i => decide (i < 8 - file sq)) 0
  else 0

/-- The loop the source labels South-west, which writes `rays[SouthEast]`
(step `-9`, bounded by `i <= file`). -/
def raySouthEast (sq : Nat) : Nat :=
  if rank sq > 0 ∧ file sq > 0 then
    diagRayAux 8 ((sq : Int) - 9) (-9) 1 (fun i => decide (i ≤ file sq)) 0
  else 0

/-- The loop the source labels North-east (step `+7`, bounded by `i <= file`). -/
def rayNorthEast (sq : Nat) : Nat :=
  if rank sq < 7 ∧ file sq > 0 then
    diagRayAux 8 ((sq : Int) + 7) 7 1 (fun i => decide (i ≤ file sq)) 0
  else 0

/-- The loop the source labels South-east, which writes `rays[SouthWest]`
(step `-7`, bounded by `i < 8 - file`). -/
def raySouthWest (sq : Nat) : Nat :=
  if rank sq > 0 ∧ file sq < 7 then
    diagRayAux 8 ((sq : Int) - 7) (-7) 1 (fun i => decide (i < 8 - file sq)) 0
  else 0

/-- The `rays` table, indexed by direction and square. -/
def raysFn : RayDirection → Nat → Nat
  | .North, sq => rayNorth sq
  | .East, sq => rayEast sq
  | .South, sq => raySouth sq
  | .West, sq => rayWest sq
  | .NorthEast, sq => rayNorthEast sq
  | .SouthEast, sq => raySouthEast sq
  | .SouthWest, sq => raySouthWest sq
  | .NorthWest, sq => rayNorthWest sq

/-- Rook composite ray (all four rook rays), saved to `comp_rays` before the
edge squares are removed. -/
def rook_comp_ray (sq : Nat) : Nat :=
  rayNorth sq ||| raySouth sq ||| rayWest sq ||| rayEast sq

/-- `rook_masks`: composite ray with the four edge bits of its file and rank
removed, as in `init_rook_moves`. -/
def rook_masks (sq : Nat) : Nat :=
  Nat.land
    (Nat.land
      (Nat.land
        (Nat.land (rook_comp_ray sq) (not64 (1 <<< file sq)))
        (not64 (1 <<< (7 * 8 + file sq))))
      (not64 (1 <<< (8 * rank sq + 8 - 1))))
    (not64 (1 <<< (8 * rank sq)))

/-- Bishop composite ray (all four diagonal rays), saved to `comp_rays`. -/
def bishop_comp_ray (sq : Nat) : Nat :=
  rayNorthWest sq ||| raySouthWest sq ||| raySouthEast sq ||| rayNorthEast sq

/-- The `EDGE_MASK` constant of `init_bishop_moves`. -/
def BISHOP_EDGE_MASK : Nat := 35604928818740736

/-- `bishop_masks`: composite diagonal ray with board-edge bits cleared. -/
def bishop_masks (sq : Nat) : Nat := Nat.land (bishop_comp_ray sq) BISHOP_EDGE_MASK

/-- `queen_masks = rook_masks | bishop_masks`. -/
def queen_masks (sq : Nat) : Nat := rook_masks sq ||| bishop_masks sq

/-- `comp_rays`: composite rays including edge squares, for bishop, rook and
queen (`get_comp_rays`); other pieces are unreachable in the source. -/
def comp_rays : Piece → Nat → Nat
  | .Bishop, sq => bishop_comp_ray sq
  | .Rook, sq => rook_comp_ray sq
  | .Queen, sq => bishop_comp_ray sq ||| rook_comp_ray sq
  | _, _ => 0

/-- Pawn quiet-move masks of `init_pawn_moves`. -/
def pawn_moves_tbl (s : Side) (sq : Nat) : Nat :=
  match s with
  | .White =>
    if rank sq ≠ 7 then
      (1 <<< (sq + 8)) ||| (if rank sq = 1 then 1 <<< (sq + 2 * 8) else 0)
    else 0
  | .Black =>
    if rank sq ≠ 0 then
      (1 <<< (sq - 8)) ||| (if rank sq = 8 - 2 then 1 <<< (sq - 2 * 8) else 0)
    else 0

/-- Pawn capture masks of `init_pawn_moves`. -/
def pawn_capture_moves_tbl (s : Side) (sq : Nat) : Nat :=
  match s with
  | .White =>
    if rank sq ≠ 7 then
      (if file sq ≠ 7 then 1 <<< (sq + 8 + 1) else 0) |||
      (if file sq ≠ 0 then 1 <<< (sq + 8 - 1) else 0)
    else 0
  | .Black =>
    if rank sq ≠ 0 then
      (if file sq ≠ 7 then 1 <<< (sq - 8 + 1) else 0) |||
      (if file sq ≠ 0 then 1 <<< (sq - 8 - 1) else 0)
    else 0

/-- Knight move masks of `init_knight_moves`. -/
def knight_moves_tbl (sq : Nat) : Nat :=
  (if rank sq ≤ 8 - 3 ∧ file sq ≠ 7 then 1 <<< (sq + 2 * 8 + 1) else 0) |||
  (if rank sq ≤ 8 - 3 ∧ file sq ≠ 0 then 1 <<< (sq + 2 * 8 - 1) else 0) |||
  (if rank sq ≥ 2 ∧ file sq ≠ 7 then 1 <<< (sq - 2 * 8 + 1) else 0) |||
  (if rank sq ≥ 2 ∧ file sq ≠ 0 then 1 <<< (sq - 2 * 8 - 1) else 0) |||
  (if file sq ≤ 8 - 3 ∧ rank sq ≠ 7 then 1 <<< (sq + 2 + 8) else 0) |||
  (if file sq ≤ 8 - 3 ∧ rank sq ≠ 0 then 1 <<< (sq + 2 - 8) else 0) |||
  (if file sq ≥ 2 ∧ rank sq ≠ 7 then 1 <<< (sq - 2 + 8) else 0) |||
  (if file sq ≥ 2 ∧ rank sq ≠ 0 then 1 <<< (sq - 2 - 8) else 0)

/-- King move masks of `init_king_moves`. -/
def king_moves_tbl (sq : Nat) : Nat :=
  (if file sq ≠ 7 then 1 <<< (sq + 1) else 0) |||
  (if file sq ≠ 0 then 1 <<< (sq - 1) else 0) |||
  (if rank sq ≠ 7 then 1 <<< (sq + 8) else 0) |||
  (if rank sq ≠ 0 then 1 <<< (sq - 8) else 0) |||
  (if file sq ≠ 7 ∧ rank sq ≠ 7 then 1 <<< (sq + 8 + 1) else 0) |||
  (if file sq ≠ 0 ∧ rank sq ≠ 7 then 1 <<< (sq + 8 - 1) else 0) |||
  (if file sq ≠ 7 ∧ rank sq ≠ 0 then 1 <<< (sq - 8 + 1) else 0) |||
  (if file sq ≠ 0 ∧ rank sq ≠ 0 then 1 <<< (sq - 8 - 1) else 0)

/-- The `Index<(Piece, Side, usize)>` implementation on `MoveBitboards`:
pawns get quiet masks, sliders get their blocker masks, leapers their masks. -/
def pl_index (p : Piece) (s : Side) (sq : Nat) : Nat :=
  match p with
  | .Pawn => pawn_moves_tbl s sq
  | .Knight => knight_moves_tbl sq
  | .Bishop => bishop_masks sq
  | .Rook => rook_masks sq
  | .Queen => queen_masks sq
  | .King => king_moves_tbl sq

/-- `get_piece_blocker_mask`; pawn/knight/king are unreachable in the source. -/
def get_piece_blocker_mask : Piece → Nat → Nat
  | .Rook, sq => rook_masks sq
  | .Bishop, sq => bishop_masks sq
  | .Queen, sq => queen_masks sq
  | _, _ => 0

/-- `MoveBitboards::get_bishop_rays`: the slow ray-walking attack computation.
For each diagonal direction, cast the ray, find the nearest blocker and
truncate the ray past it (the blocker square itself stays in the set). -/
def get_bishop_rays (square : Nat) (blocker_mask : Nat) : Nat :=
  [RayDirection.NorthEast, RayDirection.SouthEast,
   RayDirection.SouthWest, RayDirection.NorthWest].foldl
    (fun moves_bb direction =>
      let ray := raysFn direction square
      let moves_bb := moves_bb ||| ray
      let blockers := Nat.land ray blocker_mask
      if blockers ≠ 0 then
        let nearest_blocker_square :=
          match direction with
          | .NorthEast | .NorthWest => ctz64 blockers
          | .SouthEast | .SouthWest => msb64 blockers
          | _ => 0
        Nat.land moves_bb (not64 (raysFn direction nearest_blocker_square))
      else moves_bb) 0

/-- `MoveBitboards::get_rook_rays`: the slow ray-walking attack computation
for rook directions. -/
def get_rook_rays (square : Nat) (blocker_mask : Nat) : Nat :=
  [RayDirection.North, RayDirection.East,
   RayDirection.South, RayDirection.West].foldl
    (fun moves_bb direction =>
      let ray := raysFn direction square
      let moves_bb := moves_bb ||| ray
      let blockers := Nat.land ray blocker_mask
      if blockers ≠ 0 then
        let nearest_blocker_square :=
          match direction with
          | .North | .West => ctz64 blockers
          | .East | .South => msb64 blockers
          | _ => 0
        Nat.land moves_bb (not64 (raysFn direction nearest_blocker_square))
      else moves_bb) 0

/-! ### Magic bitboards (`magic.rs`) -/

/-- `ROOK_SQUARE_BITS`. -/
def ROOK_SQUARE_BITS : List Nat := [
  12, 11, 11, 11, 11, 11, 11, 12,
  11, 10, 10, 10, 10, 10, 10, 11,
  11, 10, 10, 10, 10, 10, 10, 11,
  11, 10, 10, 10, 10, 10, 10, 11,
  11, 10, 10, 10, 10, 10, 10, 11,
  11, 10, 10, 10, 10, 10, 10, 11,
  11, 10, 10, 10, 10, 10, 10, 11,
  12, 11, 11, 11, 11, 11, 11, 12]

/-- `BISHOP_SQUARE_BITS`. -/
def BISHOP_SQUARE_BITS : List Nat := [
  6, 5, 5, 5, 5, 5, 5, 6,
  5, 5, 5, 5, 5, 5, 5, 5,
  5, 5, 7, 7, 7, 7, 5, 5,
  5, 5, 7, 9, 9, 7, 5, 5,
  5, 5, 7, 9, 9, 7, 5, 5,
  5, 5, 7, 7, 7, 7, 5, 5,
  5, 5, 5, 5, 5, 5, 5, 5,
  6, 5, 5, 5, 5, 5, 5, 6]

/-- `PRECOMP_ROOK_MAGICS`: the pre-computed rook magic multipliers. -/
def PRECOMP_ROOK_MAGICS : List Nat := [
  36037800344256544, 18014699425783808, 612507141653135490, 180149585766776960, 9367522452253967440, 1224983496725373696, 4683814535262110208, 144126200376230433, 2379167241225650193, 141012542431234, 576601558536429568, 5584604309795934208, 9278822955159418880, 563018773611544, 422508817940608, 3518438291013888, 3518986966810624, 8092968805298341970, 141287512875016, 108227678435282944, 2307112395455072257, 4756083781126980608, 324351532416402961, 1441154079790273092, 36169674093903872, 234398289005380224, 35186520621184, 180231948173050242, 2319406606129299712, 2759018022366611468, 285885924901376, 5718018812302337, 143211397906528, 2534531085123584, 425030022340608, 1556910620823552, 72202731728668672, 147070718289380353, 11817463048833073442, 869335480108323072, 648845452124520448, 9385607195078443012, 1971012052779028, 10971912467835912224, 146648739894788640, 1153484506234224656, 6352332849544429576, 144115473842569220, 2342435873439629824, 2377971041252245632, 292734388104336512, 1153211777825112192, 292879184332062976, 9288682888497408, 649098922857499648, 9223381951992562176, 9268478951647367425, 126241601142923521, 2328431583863832713, 87965239871493, 4630544876231200811, 18296199905281537, 13873057185728823427, 4543598766867458]

/-- `PRECOMP_BISHOP_MAGICS`: the pre-computed bishop magic multipliers. -/
def PRECOMP_BISHOP_MAGICS : List Nat := [
  325407081031270657, 153135587946152352, 1235121311739805696, 9875273726504208384, 3127829380923981954, 9578954033758208, 432917397851340816, 577025912086463012, 10394312372512104608, 8967900660225, 1134722105352192, 4613829965284352, 9108553007122, 153123642000016384, 18024947088098304, 4510197839299778, 9010772709740806, 3118560251544576, 7066147987151400980, 1306189061865619456, 9391412647615794200, 1162491692473975808, 81223124108189698, 4683884633430163841, 9027283058955008, 1139094215723008, 16142046755679635472, 290271338700832, 13837037193442377744, 56297196651299329, 151183352660992, 9251521218163642624, 4516813648957504, 4611829126906515584, 6341420299485971460, 10088345192190443616, 4649968831463493888, 466198301114624, 36596146243700744, 5428301810237504, 2326391920001028096, 6918098171613683713, 9223653614978368000, 4684871574359140608, 142979629319170, 698093160976355393, 20363264588251280, 2306970577765664260, 1129766788796545, 285875775012864, 1297126861244203392, 162129587692773461, 703962592387072, 9512732779751161888, 2542075245760720, 2254001020207109, 563500800823312, 2305849614890436096, 288934339579219008, 206162760192, 2342022547243024640, 289365243984347648, 72274233530597888, 1443651139441673472]

/-- Rook table-index width for a square. -/
def rookBits (sq : Nat) : Nat := ROOK_SQUARE_BITS.getD sq 0

/-- Bishop table-index width for a square. -/
def bishopBits (sq : Nat) : Nat := BISHOP_SQUARE_BITS.getD sq 0

/-- Pre-computed rook magic for a square. -/
def rookMagic (sq : Nat) : Nat := PRECOMP_ROOK_MAGICS.getD sq 0

/-- Pre-computed bishop magic for a square. -/
def bishopMagic (sq : Nat) : Nat := PRECOMP_BISHOP_MAGICS.getD sq 0

/-- `MagicBitboard::magic_index`: `(blockers.wrapping_mul(magic)) >> (64 - bits)`. -/
def magic_index (magic blockers bits : Nat) : Nat :=
  Nat.shiftRight (Nat.land (blockers * magic) U64_MASK) (64 - bits)

/-- Loop body of `get_blocker_from_idx`: scatter the low bits of `idx` onto the
set bit positions of `mask`, lowest position first. -/
def blockerLoopAux : Nat → Nat → Nat → Nat → Nat → Nat
  | 0, _, _, _, blockers => blockers
  | fuel+1, idx, mask, i, blockers =>
    if mask = 0 then blockers
    else
      let pos := ctz64 mask
      let blockers :=
        if Nat.land idx (1 <<< i) ≠ 0 then blockers ||| (1 <<< pos) else blockers
      blockerLoopAux fuel idx (Nat.land mask (mask - (1 <<< pos))) (i+1) blockers

/-- `MagicBitboard::get_blocker_from_idx`. -/
def get_blocker_from_idx (idx mask : Nat) : Nat := blockerLoopAux 64 idx mask 0 0

/-- The sequence of writes `init_move_table` performs for one rook square:
for each blocker index, the pair (table slot, ray-walk attack set). -/
def rook_write_list (sq : Nat) : List (Nat × Nat) :=
  (List.range (2 ^ rookBits sq)).map fun blocker_idx =>
    let blockers := get_blocker_from_idx blocker_idx (rook_masks sq)
    (magic_index (rookMagic sq) blockers (rookBits sq), get_rook_rays sq blockers)

/-- The writes of `init_move_table` for one bishop square. -/
def bishop_write_list (sq : Nat) : List (Nat × Nat) :=
  (List.range (2 ^ bishopBits sq)).map fun blocker_idx =>
    let blockers := get_blocker_from_idx blocker_idx (bishop_masks sq)
    (magic_index (bishopMagic sq) blockers (bishopBits sq), get_bishop_rays sq blockers)

/-- Reading slot `j` of a zero-initialised array after a list of writes
(last write to a slot wins), modelling the per-square attack table. -/
def table_get (writes : List (Nat × Nat)) (j : Nat) : Nat :=
  writes.foldl (fun acc iv => if iv.1 = j then iv.2 else acc) 0

/-- `MagicBitboard::get_rook_moves` with the pre-computed magics: index the
square's table (as populated by `init_move_table`) by the magic index. -/
def get_rook_moves (square blockers : Nat) : Nat :=
  table_get (rook_write_list square) (magic_index (rookMagic square) blockers (rookBits square))

/-- `MagicBitboard::get_bishop_moves` with the pre-computed magics. -/
def get_bishop_moves (square blockers : Nat) : Nat :=
  table_get (bishop_write_list square) (magic_index (bishopMagic square) blockers (bishopBits square))

/-! ### The board (`board.rs`) -/

/-- Read the component of a two-sided array (`arr[side as usize]`). -/
def sideGet {α : Type} (p : α × α) : Side → α
  | .White => p.1
  | .Black => p.2

/-- Write the component of a two-sided array. -/
def sideSet {α : Type} (p : α × α) : Side → α → α × α
  | .White, v => (v, p.2)
  | .Black, v => (p.1, v)

/-- The `Board` struct: one bitboard per (piece, side), the side to move,
castling rights and the en-passant square (0 meaning none). -/
structure Board where
  pawns : Nat × Nat
  knights : Nat × Nat
  bishops : Nat × Nat
  rooks : Nat × Nat
  queens : Nat × Nat
  king : Nat × Nat
  side_to_move : Side
  castling_right_long : Bool × Bool
  castling_right_short : Bool × Bool
  en_passant_square : Nat
deriving DecidableEq

/-- `Index<(Piece, Side)>` for `Board`. -/
def Board.bb (b : Board) (p : Piece) (s : Side) : Nat :=
  match p with
  | .Pawn => sideGet b.pawns s
  | .Knight => sideGet b.knights s
  | .Bishop => sideGet b.bishops s
  | .Rook => sideGet b.rooks s
  | .Queen => sideGet b.queens s
  | .King => sideGet b.king s

/-- `IndexMut<(Piece, Side)>` for `Board` (functional write). -/
def Board.setBB (b : Board) (p : Piece) (s : Side) (v : Nat) : Board :=
  match p with
  | .Pawn => { b with pawns := sideSet b.pawns s v }
  | .Knight => { b with knights := sideSet b.knights s v }
  | .Bishop => { b with bishops := sideSet b.bishops s v }
  | .Rook => { b with rooks := sideSet b.rooks s v }
  | .Queen => { b with queens := sideSet b.queens s v }
  | .King => { b with king := sideSet b.king s v }

/-- `Board::default()`: the standard starting position. -/
def Board.start : Board where
  pawns := (0b0000000000000000000000000000000000000000000000001111111100000000,
            0b0000000011111111000000000000000000000000000000000000000000000000)
  knights := (0b0000000000000000000000000000000000000000000000000000000001000010,
              0b0100001000000000000000000000000000000000000000000000000000000000)
  bishops := (0b0000000000000000000000000000000000000000000000000000000000100100,
              0b0010010000000000000000000000000000000000000000000000000000000000)
  rooks := (0b0000000000000000000000000000000000000000000000000000000010000001,
            0b1000000100000000000000000000000000000000000000000000000000000000)
  queens := (0b0000000000000000000000000000000000000000000000000000000000010000,
             0b0001000000000000000000000000000000000000000000000000000000000000)
  king := (0b0000000000000000000000000000000000000000000000000000000000001000,
           0b0000100000000000000000000000000000000000000000000000000000000000)
  side_to_move := .White
  en_passant_square := 0
  castling_right_long := (true, true)
  castling_right_short := (true, true)

/-- `Board::ROOK_SHORT_SQUARES = [0, 56]`. -/
def ROOK_SHORT_SQUARES (s : Side) : Nat :=
  match s with
  | .White => 0
  | .Black => 8 * (8 - 1)

/-- `Board::ROOK_LONG_SQUARES = [7, 63]`. -/
def ROOK_LONG_SQUARES (s : Side) : Nat :=
  match s with
  | .White => 8 - 1
  | .Black => 8 * 8 - 1

/-- `Board::update_en_passant_flag`: reset the en-passant square, then set it
behind any pawn that just made a quiet two-rank push. -/
def Board.update_en_passant_flag (b : Board) (m : Move) : Board :=
  let b := { b with en_passant_square := 0 }
  if m.piece = .Pawn ∧ m.move_type = .Quiet then
    let n_ranks_moved : Int := (m.to_square : Int) - (m.from_square : Int)
    if n_ranks_moved.natAbs = 8 * 2 then
      { b with
        en_passant_square := ((m.to_square : Int) - n_ranks_moved.sign * 8).toNat }
    else b
  else b

/-- `Board::update_castling_rights`: a king move clears both of the mover's
rights; a rook move from its original corner clears the corresponding right.
(The source has no case for a rook being captured on its corner.) -/
def Board.update_castling_rights (b : Board) (m : Move) : Board :=
  match m.piece with
  | .King =>
    { b with
      castling_right_long := sideSet b.castling_right_long m.side false
      castling_right_short := sideSet b.castling_right_short m.side false }
  | .Rook =>
    if sideGet b.castling_right_short m.side = true
        ∧ m.from_square = ROOK_SHORT_SQUARES m.side then
      { b with castling_right_short := sideSet b.castling_right_short m.side false }
    else if sideGet b.castling_right_long m.side = true
        ∧ m.from_square = ROOK_LONG_SQUARES m.side then
      { b with castling_right_long := sideSet b.castling_right_long m.side false }
    else b
  | _ => b

/-- `Board::make_move`: apply a move to the bitboards (castling handled by
canonical king/rook displacement; quiet/capture/promotion by bit updates).
The side to move is not flipped here; `GameState` does that. -/
def Board.make_move (b : Board) (m : Move) : Board :=
  let b := b.update_en_passant_flag m
  let b := b.update_castling_rights m
  match m.move_type with
  | .CastleShort =>
    let b := b.setBB .King m.side (Nat.shiftRight (b.bb .King m.side) 2)
    match m.side with
    | .White =>
      let b := b.setBB .Rook m.side (Nat.land (b.bb .Rook m.side) (not64 (1 <<< 0)))
      b.setBB .Rook m.side ((b.bb .Rook m.side) ||| (1 <<< 2))
    | .Black =>
      let b := b.setBB .Rook m.side (Nat.land (b.bb .Rook m.side) (not64 (1 <<< (8 * (8 - 1)))))
      b.setBB .Rook m.side ((b.bb .Rook m.side) ||| (1 <<< (8 * (8 - 1) + 2)))
  | .CastleLong =>
    let b := b.setBB .King m.side (Nat.shiftLeft (b.bb .King m.side) 2)
    match m.side with
    | .White =>
      let b := b.setBB .Rook m.side (Nat.land (b.bb .Rook m.side) (not64 (1 <<< (8 - 1))))
      b.setBB .Rook m.side ((b.bb .Rook m.side) ||| (1 <<< (8 - 1 - 3)))
    | .Black =>
      let b := b.setBB .Rook m.side (Nat.land (b.bb .Rook m.side) (not64 (1 <<< (8 * 8 - 1))))
      b.setBB .Rook m.side ((b.bb .Rook m.side) ||| (1 <<< (8 * 8 - 1 - 3)))
  | _ =>
    let b := b.setBB m.piece m.side (Nat.land (b.bb m.piece m.side) (not64 (1 <<< m.from_square)))
    let new_square_piece_type :=
      match m.move_type with
      | .Promotion promotion_piece => promotion_piece
      | .CapturePromotion _ promotion_piece => promotion_piece
      | _ => m.piece
    let b := b.setBB new_square_piece_type m.side
      ((b.bb new_square_piece_type m.side) ||| (1 <<< m.to_square))
    match m.move_type with
    | .Capture captured_piece | .CapturePromotion captured_piece _ =>
      b.setBB captured_piece m.side.opposite
        (Nat.land (b.bb captured_piece m.side.opposite) (not64 (1 <<< m.to_square)))
    | .EnPassantCapture captured_piece =>
      let enemy_pawn_square :=
        ((m.to_square : Int) + ((m.side.idx : Int) * 2 - 1) * 8).toNat
      b.setBB captured_piece m.side.opposite
        (Nat.land (b.bb captured_piece m.side.opposite) (not64 (1 <<< enemy_pawn_square)))
    | _ => b

/-- `Board::undo_move`: restore the caller-saved castling rights, flip the
side to move, reset the en-passant square to 0 (re-setting it only when the
undone move was itself an en-passant capture), and move pieces back. -/
def Board.undo_move (b : Board) (m : Move)
    (castling_right_long castling_right_short : Bool × Bool) : Board :=
  let b := { b with
    castling_right_short := castling_right_short
    castling_right_long := castling_right_long }
  let b := { b with side_to_move := b.side_to_move.opposite }
  let b := { b with en_passant_square := 0 }
  match m.move_type with
  | .CastleShort =>
    let b := b.setBB .King m.side (Nat.shiftLeft (b.bb .King m.side) 2)
    match m.side with
    | .White =>
      let b := b.setBB .Rook m.side (Nat.land (b.bb .Rook m.side) (not64 (1 <<< 2)))
      b.setBB .Rook m.side ((b.bb .Rook m.side) ||| (1 <<< 0))
    | .Black =>
      let b := b.setBB .Rook m.side (Nat.land (b.bb .Rook m.side) (not64 (1 <<< (8 * (8 - 1) + 2))))
      b.setBB .Rook m.side ((b.bb .Rook m.side) ||| (1 <<< (8 * (8 - 1))))
  | .CastleLong =>
    let b := b.setBB .King m.side (Nat.shiftRight (b.bb .King m.side) 2)
    match m.side with
    | .White =>
      let b := b.setBB .Rook m.side (Nat.land (b.bb .Rook m.side) (not64 (1 <<< (8 - 1 - 3))))
      b.setBB .Rook m.side ((b.bb .Rook m.side) ||| (1 <<< (8 - 1)))
    | .Black =>
      let b := b.setBB .Rook m.side (Nat.land (b.bb .Rook m.side) (not64 (1 <<< (8 * 8 - 1 - 3))))
      b.setBB .Rook m.side ((b.bb .Rook m.side) ||| (1 <<< (8 * 8 - 1)))
  | _ =>
    let b :=
      match m.move_type with
      | .Promotion promoted_piece | .CapturePromotion _ promoted_piece =>
        b.setBB promoted_piece m.side (Nat.land (b.bb promoted_piece m.side) (not64 (1 <<< m.to_square)))
      | _ =>
        b.setBB m.piece m.side (Nat.land (b.bb m.piece m.side) (not64 (1 <<< m.to_square)))
    let b := b.setBB m.piece m.side ((b.bb m.piece m.side) ||| (1 <<< m.from_square))
    match m.move_type with
    | .Capture captured_piece | .CapturePromotion captured_piece _ =>
      b.setBB captured_piece m.side.opposite
        ((b.bb captured_piece m.side.opposite) ||| (1 <<< m.to_square))
    | .EnPassantCapture captured_piece =>
      let enemy_pawn_square :=
        ((m.to_square : Int) + ((m.side.idx : Int) * 2 - 1) * 8).toNat
      let b := b.setBB captured_piece m.side.opposite
        ((b.bb captured_piece m.side.opposite) ||| (1 <<< enemy_pawn_square))
      { b with en_passant_square := m.to_square }
    | _ => b

/-- `Board::occupation_board`: union of one side's six piece bitboards. -/
def Board.occupation_board (b : Board) (s : Side) : Nat :=
  Piece.VALUES.foldl (fun occ_bb piece => occ_bb ||| b.bb piece s) 0

/-! ### The Zobrist hasher (`zobrist.rs`) -/

/-- `ZobristHasher`: the randomly initialised tables are modelled as
parameters (the source draws them from `rand::thread_rng` at startup). -/
structure ZobristHasher where
  rands : Side → Piece → Nat → Nat
  black_to_move_rand : Nat
  castling_right_long_rands : Nat → Nat
  castling_right_short_rands : Nat → Nat
  ep_file_rands : Nat → Nat

/-- `ZobristHasher::hash`: XOR of the side-to-move value, the per-piece
square values, the castling-rights values indexed by the per-kind count of
rights still set, and the en-passant file value when the EP square is set. -/
def ZobristHasher.hash (z : ZobristHasher) (b : Board) : Nat :=
  let h := if b.side_to_move = .Black then Nat.xor 0 z.black_to_move_rand else 0
  let h := Side.VALUES.foldl (fun h side =>
    Piece.VALUES.foldl (fun h piece =>
      foldBits (fun h square => Nat.xor h (z.rands side piece square)) h (b.bb piece side)) h) h
  let long_castle_rights :=
    (if sideGet b.castling_right_long .White = true then 1 else 0) +
    (if sideGet b.castling_right_long .Black = true then 1 else 0)
  let short_castle_rights :=
    (if sideGet b.castling_right_short .White = true then 1 else 0) +
    (if sideGet b.castling_right_short .Black = true then 1 else 0)
  let h := Nat.xor h (z.castling_right_long_rands long_castle_rights)
  let h := Nat.xor h (z.castling_right_short_rands short_castle_rights)
  if b.en_passant_square ≠ 0 then Nat.xor h (z.ep_file_rands (file b.en_passant_square)) else h

/-! ### The game state (`game.rs`)

The Rust `GameState` holds references to the shared `MoveBitboards` and
`MagicBitboard`; here the magic oracle is passed as a `Magics` record of the
two lookup functions, instantiated with the table-based lookups
(`precompMagics`, the real engine configuration) or with the slow ray walks
(`rayMagics`), which agree on every reachable input (the content of C2). -/

/-- The magic oracle interface: `get_rook_moves` and `get_bishop_moves`. -/
structure Magics where
  rookMoves : Nat → Nat → Nat
  bishopMoves : Nat → Nat → Nat

/-- The oracle backed by the pre-computed magic tables
(`MagicBitboard::init_precomputed`). -/
def precompMagics : Magics := ⟨get_rook_moves, get_bishop_moves⟩

/-- The oracle that runs the slow ray walk directly. -/
def rayMagics : Magics := ⟨get_rook_rays, get_bishop_rays⟩

/-- The `GameState` struct.  The `HashMap<u64, usize>` occurrence counter is
modelled as a total function defaulting to 0 (an absent key and a key whose
count was decremented to 0 behave identically in every reachable use). -/
structure GameState where
  board : Board
  occupation_boards : Nat × Nat
  comp_occupation_board : Nat
  half_move_number : Nat
  move_number : Nat
  half_move_of_last_capture : Nat
  threefold_repetition : Bool
  pos_hash : Nat
  position_occurance_counter : Nat → Nat

/-- `GameState::update_occupation_boards`. -/
def GameState.update_occupation_boards (gs : GameState) : GameState :=
  let w := gs.board.occupation_board .White
  let bl := gs.board.occupation_board .Black
  { gs with occupation_boards := (w, bl), comp_occupation_board := w ||| bl }

/-- `GameState::from_board`: fresh counters, hash 0, empty occurrence map. -/
def GameState.from_board (b : Board) : GameState :=
  GameState.update_occupation_boards
    { board := b
      occupation_boards := (0, 0)
      comp_occupation_board := 0
      half_move_number := 1
      move_number := 1
      half_move_of_last_capture := 0
      threefold_repetition := false
      pos_hash := 0
      position_occurance_counter := fun _ => 0 }

/-- `GameState::new`: the standard starting position. -/
def GameState.new : GameState := GameState.from_board Board.start

/-- `GameState::update_board_with_move`: apply the move to the board, refresh
the occupation boards, advance the move counters, record captures for the
fifty-move rule, flip the side to move, rehash, and bump the occurrence
counter (setting the sticky threefold flag when a count reaches exactly 3). -/
def GameState.update_board_with_move (z : ZobristHasher) (gs : GameState) (m : Move) : GameState :=
  let gs := { gs with board := gs.board.make_move m }
  let gs := gs.update_occupation_boards
  let gs := { gs with half_move_number := gs.half_move_number + 1 }
  let gs :=
    if gs.half_move_number % 2 ≠ 0 then { gs with move_number := gs.move_number + 1 } else gs
  let gs :=
    if m.is_capture = true then { gs with half_move_of_last_capture := gs.half_move_number } else gs
  let gs := { gs with board := { gs.board with side_to_move := gs.board.side_to_move.opposite } }
  let h := z.hash gs.board
  let n_occurances := gs.position_occurance_counter h + 1
  let gs := { gs with
    pos_hash := h
    position_occurance_counter :=
      fun k => if k = h then n_occurances else gs.position_occurance_counter k }
  if n_occurances = 3 then { gs with threefold_repetition := true } else gs

/-- `GameState::update_board_undo_move`: undo the move on the board, refresh
occupation boards, roll back the counters, restore the caller-saved half-move
of last capture, decrement the occurrence count of the undone position's key,
rehash, and clear the threefold flag. -/
def GameState.update_board_undo_move (z : ZobristHasher) (gs : GameState) (m : Move)
    (castling_right_long castling_right_short : Bool × Bool)
    (half_move_of_last_capture : Nat) : GameState :=
  let gs := { gs with board := gs.board.undo_move m castling_right_long castling_right_short }
  let gs := gs.update_occupation_boards
  let gs := { gs with half_move_number := gs.half_move_number - 1 }
  let gs :=
    if gs.half_move_number % 2 = 0 then { gs with move_number := gs.move_number - 1 } else gs
  let gs := { gs with half_move_of_last_capture := half_move_of_last_capture }
  let old := gs.pos_hash
  let gs := { gs with
    position_occurance_counter :=
      fun k => if k = old then gs.position_occurance_counter k - 1
                else gs.position_occurance_counter k }
  let gs := { gs with pos_hash := z.hash gs.board }
  { gs with threefold_repetition := false }

/-- `GameState::get_move_result`: fifty-move draw first, then the threefold
flag, then check/checkmate, then stalemate. -/
def GameState.get_move_result (gs : GameState) (legal_moves_opposite : List Move)
    (in_check : Bool) : Option MoveResult :=
  let has_legal_moves := legal_moves_opposite.length ≠ 0
  let moves_since_last_capture :=
    (gs.half_move_number - gs.half_move_of_last_capture) / 2
  if moves_since_last_capture = 50 then some (.Draw .FiftyMoveRule)
  else if gs.threefold_repetition = true then some (.Draw .ThreeFoldRepetition)
  else if in_check = true then
    if ¬ has_legal_moves then some .Checkmate else some .Check
  else if ¬ has_legal_moves then some (.Draw .Stalemate)
  else none

/-- `GameState::slider_moves`: magic lookup on the occupancy restricted to
the square's blocker mask (queen = rook | bishop lookups). -/
def GameState.slider_moves (mag : Magics) (gs : GameState) (piece : Piece) (square : Nat) : Nat :=
  match piece with
  | .Rook =>
    let blocker_mask := Nat.land gs.comp_occupation_board (get_piece_blocker_mask .Rook square)
    mag.rookMoves square blocker_mask
  | .Bishop =>
    let blocker_mask := Nat.land gs.comp_occupation_board (get_piece_blocker_mask .Bishop square)
    mag.bishopMoves square blocker_mask
  | .Queen =>
    let blocker_mask_bishop :=
      Nat.land gs.comp_occupation_board (get_piece_blocker_mask .Bishop square)
    let blocker_mask_rook :=
      Nat.land gs.comp_occupation_board (get_piece_blocker_mask .Rook square)
    mag.rookMoves square blocker_mask_rook ||| mag.bishopMoves square blocker_mask_bishop
  | _ => 0

/-- `GameState::pawn_moves`: drop quiet squares at and past the nearest
blocker, then add captures on enemy-occupied squares or the en-passant
square (the `1 << en_passant_square` term sets bit 0 when there is no EP
target). -/
def GameState.pawn_moves (gs : GameState) (square : Nat) (moves_bb : Nat) : Nat :=
  let pawn_blockers := Nat.land moves_bb gs.comp_occupation_board
  let moves_bb :=
    if pawn_blockers ≠ 0 then
      let nearest_blocker_square :=
        match gs.board.side_to_move with
        | .White => ctz64 pawn_blockers
        | .Black => msb64 pawn_blockers
      Nat.land
        (Nat.land moves_bb (not64 (pawn_moves_tbl gs.board.side_to_move nearest_blocker_square)))
        (not64 (1 <<< nearest_blocker_square))
    else moves_bb
  let capture_squares := pawn_capture_moves_tbl gs.board.side_to_move square
  moves_bb |||
    Nat.land capture_squares
      (sideGet gs.occupation_boards gs.board.side_to_move.opposite
        ||| (1 <<< gs.board.en_passant_square))

/-- `GameState::remove_friendly_moves`. -/
def GameState.remove_friendly_moves (gs : GameState) (moves_bb : Nat) : Nat :=
  Nat.land moves_bb (not64 (sideGet gs.occupation_boards gs.board.side_to_move))

/-- `GameState::generate_promotion_moves`: one move per promotion piece. -/
def GameState.generate_promotion_moves (gs : GameState) (piece : Piece)
    (square target_square : Nat) (is_capture : Bool) (captured_piece : Piece)
    (move_list : List Move) : List Move :=
  Piece.PROMOTION_PIECES.foldl (fun move_list promotion_piece =>
    let move_type :=
      if is_capture = true then MoveType.CapturePromotion captured_piece promotion_piece
      else MoveType.Promotion promotion_piece
    move_list ++ [⟨square, target_square, move_type, piece, gs.board.side_to_move⟩]) move_list

/-- `GameState::generate_moves_from_bb`: pop target squares, classify each as
quiet, capture (determining the victim) or en-passant capture, expanding pawn
moves to the last rank into the four promotions. -/
def GameState.generate_moves_from_bb (gs : GameState) (piece : Piece) (square : Nat)
    (moves_bb : Nat) (move_list : List Move) : List Move :=
  foldBits (fun move_list target_square =>
    let is_capture := decide (Nat.land gs.comp_occupation_board (1 <<< target_square) ≠ 0)
    let captured_piece :=
      if is_capture = true then
        (Piece.ALL_BUT_KING.find? (fun p =>
          decide (Nat.land (1 <<< target_square) (gs.board.bb p gs.board.side_to_move.opposite) ≠ 0))).getD .Pawn
      else .Pawn
    let is_pawn := piece = .Pawn
    let pawn_promotion_possible := target_square ≥ 8 * (8 - 1) ∨ target_square ≤ 8 - 1
    if is_pawn ∧ pawn_promotion_possible then
      gs.generate_promotion_moves piece square target_square is_capture captured_piece move_list
    else
      let move_type :=
        if is_pawn ∧ target_square = gs.board.en_passant_square then
          MoveType.EnPassantCapture captured_piece
        else if is_capture = true then MoveType.Capture captured_piece
        else MoveType.Quiet
      move_list ++ [⟨square, target_square, move_type, piece, gs.board.side_to_move⟩]) move_list moves_bb

/-- `GameState::get_legal_moves_for_piece_with_mask`. -/
def GameState.get_legal_moves_for_piece_with_mask (mag : Magics) (gs : GameState)
    (piece : Piece) (enemy_attack_bb : Nat) (pin_masks : Nat → Nat)
    (move_list : List Move) (mask : Nat) : List Move :=
  foldBits (fun move_list square =>
    let moves_bb :=
      if piece.is_slider = true then gs.slider_moves mag piece square
      else pl_index piece gs.board.side_to_move square
    let moves_bb :=
      if piece = .Pawn then gs.pawn_moves square moves_bb
      else if piece = .King then Nat.land moves_bb (not64 enemy_attack_bb)
      else moves_bb
    let moves_bb := Nat.land moves_bb (Nat.land mask (pin_masks square))
    let moves_bb := gs.remove_friendly_moves moves_bb
    gs.generate_moves_from_bb piece square moves_bb move_list)
    move_list (gs.board.bb piece gs.board.side_to_move)

/-- `GameState::get_checking_ray`: the ray from a checking (or pinning)
square toward the king, with its direction. -/
def GameState.get_checking_ray (gs : GameState) (checker_square : Nat) : Nat × RayDirection :=
  let king_square := ctz64 (gs.board.bb .King gs.board.side_to_move)
  let king_file := file king_square
  let king_rank := rank king_square
  let checker_file := file checker_square
  let checker_rank := rank checker_square
  let direction :=
    if king_file = checker_file then
      (if king_rank < checker_rank then RayDirection.South else RayDirection.North)
    else if king_file > checker_file then
      (if king_rank = checker_rank then RayDirection.West
       else if king_rank < checker_rank then RayDirection.SouthWest
       else RayDirection.NorthWest)
    else
      (if king_rank = checker_rank then RayDirection.East
       else if king_rank < checker_rank then RayDirection.SouthEast
       else RayDirection.NorthEast)
  (raysFn direction checker_square, direction)

/-- `GameState::enemy_attacks_piece_pins`: mark a piece pinned by an aligned
enemy slider, recording the pin-ray mask (pinner square included). -/
def GameState.enemy_attacks_piece_pins (gs : GameState) (piece : Piece) (square : Nat)
    (king_pos : Nat) (pin_masks : Nat → Nat) : Nat → Nat :=
  let comp_ray := comp_rays piece square
  let king_aligned := Nat.land comp_ray king_pos
  if king_aligned ≠ 0 then
    let pr := gs.get_checking_ray square
    let pin_ray := pr.1
    let ray_direction := pr.2
    let king_square := ctz64 king_pos
    let enemy_piece_king_ray := Nat.land pin_ray (not64 (raysFn ray_direction king_square))
    let own_blocking_pieces :=
      Nat.land enemy_piece_king_ray
        (sideGet gs.occupation_boards gs.board.side_to_move.opposite)
    if own_blocking_pieces = 0 then
      let enemy_blocking_pieces :=
        Nat.land
          (Nat.land enemy_piece_king_ray (sideGet gs.occupation_boards gs.board.side_to_move))
          (not64 king_pos)
      let n_blockers := count_ones enemy_blocking_pieces
      if n_blockers = 1 then
        let pinned_square := ctz64 enemy_blocking_pieces
        fun sq => if sq = pinned_square then pin_ray ||| (1 <<< square) else pin_masks sq
      else pin_masks
    else pin_masks
  else pin_masks

/-- `GameState::enemy_attacks`: the enemy attack bitboard, the checker list
and the pin masks, accumulated over every enemy piece. -/
def GameState.enemy_attacks (mag : Magics) (gs : GameState) :
    Nat × List (Piece × Nat × Nat) × (Nat → Nat) :=
  let king_pos := gs.board.bb .King gs.board.side_to_move
  let opposite_side := gs.board.side_to_move.opposite
  Piece.VALUES.foldl (fun acc piece =>
    foldBits (fun acc square =>
      let attacks_bb := acc.1
      let checkers := acc.2.1
      let pin_masks := acc.2.2
      let is_slider := piece.is_slider
      let moves_bb :=
        if is_slider = true then gs.slider_moves mag piece square
        else if piece = .Pawn then pawn_capture_moves_tbl opposite_side square
        else pl_index piece opposite_side square
      let next :=
        if Nat.land moves_bb king_pos ≠ 0 then
          (checkers ++ [(piece, square, moves_bb)], pin_masks)
        else if is_slider = true then
          (checkers, gs.enemy_attacks_piece_pins piece square king_pos pin_masks)
        else (checkers, pin_masks)
      (attacks_bb ||| moves_bb, next.1, next.2))
      acc (gs.board.bb piece opposite_side))
    (0, [], fun _ => 0xffffffffffffffff)

/-- `GameState::SHORT_CASTLE_MASKS`. -/
def SHORT_CASTLE_MASKS (s : Side) : Nat :=
  match s with
  | .White => 0b00000110
  | .Black => 0b00000110 <<< ((8 - 1) * 8)

/-- `GameState::LONG_CASTLE_MASKS`. -/
def LONG_CASTLE_MASKS (s : Side) : Nat :=
  match s with
  | .White => 0b01110000
  | .Black => 0b01110000 <<< ((8 - 1) * 8)

/-- `GameState::KING_STARTING_POS`. -/
def KING_STARTING_POS (s : Side) : Nat :=
  match s with
  | .White => 1 <<< 3
  | .Black => 1 <<< (8 * (8 - 1) + 3)

/-- `GameState::get_castling_moves`: emit a castle when the king is on its
start square, the right is set, the rook is in place, and the castle mask
meets neither the enemy attack bitboard nor the mover's own occupancy. -/
def GameState.get_castling_moves (gs : GameState) (enemy_attack_bb : Nat)
    (move_list : List Move) : List Move :=
  if Nat.land (gs.board.bb .King gs.board.side_to_move)
      (KING_STARTING_POS gs.board.side_to_move) = 0 then
    move_list
  else
    let stm := gs.board.side_to_move
    let move_list :=
      if sideGet gs.board.castling_right_short stm = true then
        let no_check_in_path :=
          Nat.land (SHORT_CASTLE_MASKS stm)
            (enemy_attack_bb ||| sideGet gs.occupation_boards stm) = 0
        let rook_in_place :=
          Nat.land (1 <<< ROOK_SHORT_SQUARES stm) (gs.board.bb .Rook stm) ≠ 0
        if no_check_in_path ∧ rook_in_place then
          move_list ++ [⟨0, 0, .CastleShort, .King, stm⟩]
        else move_list
      else move_list
    if sideGet gs.board.castling_right_long stm = true then
      let no_check_in_path :=
        Nat.land (LONG_CASTLE_MASKS stm)
          (enemy_attack_bb ||| sideGet gs.occupation_boards stm) = 0
      let rook_in_place :=
        Nat.land (1 <<< ROOK_LONG_SQUARES stm) (gs.board.bb .Rook stm) ≠ 0
      if no_check_in_path ∧ rook_in_place then
        move_list ++ [⟨0, 0, .CastleLong, .King, stm⟩]
      else move_list
    else move_list

/-- `GameState::get_legal_moves`: full legal move generation for the side to
move, returning the move list and whether that side is in check. -/
def GameState.get_legal_moves (mag : Magics) (gs : GameState) : List Move × Bool :=
  let ea := gs.enemy_attacks mag
  let enemy_attack_bb := ea.1
  let checkers := ea.2.1
  let pin_masks := ea.2.2
  let n_checkers := checkers.length
  let in_check := decide (n_checkers > 0)
  if in_check = false then
    let move_list := Piece.VALUES.foldl (fun move_list piece =>
      gs.get_legal_moves_for_piece_with_mask mag piece enemy_attack_bb pin_masks
        move_list 0xffffffffffffffff) []
    (gs.get_castling_moves enemy_attack_bb move_list, in_check)
  else if n_checkers = 1 then
    match checkers with
    | (checker_piece, checker_square, checker_bb) :: _ =>
      let mk :=
        if checker_piece.is_slider = true then
          let checking_ray := (gs.get_checking_ray checker_square).1
          (Nat.land checker_bb checking_ray ||| (1 <<< checker_square),
           not64 checking_ray ||| checker_bb)
        else ((1 <<< checker_square : Nat), 0xffffffffffffffff)
      let move_mask := mk.1
      let king_ray_mask := mk.2
      let move_list := gs.get_legal_moves_for_piece_with_mask mag .King enemy_attack_bb
        pin_masks [] king_ray_mask
      let move_list := Piece.ALL_BUT_KING.foldl (fun move_list piece =>
        gs.get_legal_moves_for_piece_with_mask mag piece enemy_attack_bb pin_masks
          move_list move_mask) move_list
      (move_list, in_check)
    | [] => ([], in_check)
  else
    let king_ray_mask := not64 (checkers.foldl (fun acc c =>
      if c.1.is_slider = true then acc ||| (gs.get_checking_ray c.2.1).1 ||| c.2.2 else acc) 0)
    (gs.get_legal_moves_for_piece_with_mask mag .King enemy_attack_bb pin_masks
      [] king_ray_mask, in_check)

/-- `GameState::make_move`: apply the move, then generate the opponent's
replies and derive the move result. -/
def GameState.make_move (z : ZobristHasher) (mag : Magics) (gs : GameState) (m : Move) :
    GameState × Option MoveResult × List Move :=
  let gs := gs.update_board_with_move z m
  let lm := gs.get_legal_moves mag
  (gs, gs.get_move_result lm.1 lm.2, lm.1)

/-! ### Move ordering (`move.rs::prio`) and the search (`search.rs`)

`search.rs` scores are Rust `f64`; every constant the claims touch
(`-2000.0`, `2000.0`, `0.0`, `f64::MIN`, `f64::MAX`) is an exactly
representable integer, and the search only negates and compares scores, so
scores are modelled as `Int` and the evaluator as a parameter
(`eval(position) -> score` is an external pure function per the spec). -/

/-- Modelled from the spec: `MAX_KILLER_MOVES` is imported by `move.rs` from
the search module, where it is not declared in the sources given; the spec
fixes it by "Up to two killer slots per ply". -/
def MAX_KILLER_MOVES : Nat := 2

/-- The `MVVLA` table of `move.rs`: rows indexed by victim, columns by
attacker. -/
def MVVLA_TABLE : List (List Nat) := [
  [15, 14, 13, 12, 11, 10],
  [25, 24, 23, 22, 21, 20],
  [35, 34, 33, 32, 31, 30],
  [45, 44, 43, 42, 41, 40],
  [55, 54, 53, 52, 51, 50],
  [0, 0, 0, 0, 0, 0]]

/-- `MVV_LVA_OFFSET = u32::MAX - 256`. -/
def MVV_LVA_OFFSET : Nat := 4294967295 - 256

/-- `KILLER_SCORE = 10`. -/
def KILLER_SCORE : Nat := 10

/-- `Move::prio`: captures score by the MVV-LVA table; non-captures matching
a killer slot score `MVV_LVA_OFFSET - (i+1)*KILLER_SCORE`; promotions add the
promoted piece's index.  The killer table `killer_list[i][ply]` is modelled
as a function. -/
def Move.prio (m : Move) (ply : Nat) (killer_list : Nat → Nat → Move) : Nat :=
  let score :=
    match m.move_type with
    | .Capture capture_target | .CapturePromotion capture_target _
    | .EnPassantCapture capture_target =>
      (MVVLA_TABLE.getD capture_target.idx []).getD m.piece.idx 0
    | _ =>
      (List.range MAX_KILLER_MOVES).foldl (fun score i =>
        if score = 0 then
          (if m = killer_list i ply then MVV_LVA_OFFSET - (i + 1) * KILLER_SCORE else score)
        else score) 0
  match m.move_type with
  | .Promotion promotion_piece | .CapturePromotion _ promotion_piece =>
    score + promotion_piece.idx
  | _ => score

/-- The empty killer table (every slot holds `NULL_MOVE`, which no generated
move equals).  `search.rs` as given calls `m.prio()` without killer
arguments; with this table `Move.prio` is exactly MVV-LVA plus the promotion
bonus and 0 for quiet moves. -/
def emptyKillers : Nat → Nat → Move := fun _ _ => NULL_MOVE

/-- `f64::MIN` as an exact integer: `-(2^1024 - 2^971)`. -/
def F64_MIN : Int := -(((1 <<< 1024) - (1 <<< 971) : Nat) : Int)

/-- `f64::MAX` as an exact integer: `2^1024 - 2^971`. -/
def F64_MAX : Int := (((1 <<< 1024) - (1 <<< 971) : Nat) : Int)

/-- The search environment: the shared Zobrist tables, the magic oracle and
the external evaluator. -/
structure SearchEnv where
  z : ZobristHasher
  mag : Magics
  evalFn : GameState → Int

/-- `SearchAsync::order_moves`: sort descending by priority. -/
def SearchAsync.order_moves (moves : List Move) : List Move :=
  moves.mergeSort (fun a b => decide (Move.prio b 0 emptyKillers ≤ Move.prio a 0 emptyKillers))

/-- `SearchAsync::qsearch`: quiescence search.  The in-place mutation of the
Rust `&mut GameState` is modelled by threading the state through and
returning it (the make/undo pair's net effect on the state is preserved).
`fuel` bounds the recursion depth; every theorem only needs one unfolding. -/
def SearchAsync.qsearch (env : SearchEnv) :
    Nat → GameState → List Move → Nat → Nat → Bool → Int → Int → Int × GameState
  | 0, game, _, _, _, _, _, _ => (0, game)
  | fuel+1, game, legal_moves, max_depth, depth, in_check, alpha0, beta =>
    let stand_pat := env.evalFn game
    let move_result := game.get_move_result legal_moves in_check
    if move_result = some .Checkmate then
      (if game.board.side_to_move = .White then ((-2000 : Int), game) else ((2000 : Int), game))
    else if (match move_result with | some (.Draw _) => true | _ => false) = true then
      ((0 : Int), game)
    else if depth ≥ max_depth then (stand_pat, game)
    else if in_check = false ∧ stand_pat ≥ beta then (beta, game)
    else
      let alpha := if alpha0 < stand_pat then stand_pat else alpha0
      let castling_right_long := game.board.castling_right_long
      let castling_right_short := game.board.castling_right_short
      let half_move_of_last_capture := game.half_move_of_last_capture
      let st := legal_moves.foldl (fun st m =>
        let game := st.1
        let stand_pat := st.2.1
        let alpha := st.2.2.1
        let done := st.2.2.2
        if done = true then st
        else if in_check = false ∧ ¬ (m.is_capture = true ∨ m.is_promotion = true) then
          (game, stand_pat, alpha, done)
        else
          let g1 := game.update_board_with_move env.z m
          let lm := g1.get_legal_moves env.mag
          let lmo := SearchAsync.order_moves lm.1
          let r := SearchAsync.qsearch env fuel g1 lmo max_depth (depth+1) lm.2 (-alpha) (-beta)
          let e := -r.1
          let g2 := r.2.update_board_undo_move env.z m
            castling_right_long castling_right_short half_move_of_last_capture
          let stand_pat := if e > stand_pat then e else stand_pat
          if e ≥ beta then (g2, stand_pat, alpha, true)
          else
            let alpha := if e > alpha then e else alpha
            (g2, stand_pat, alpha, false))
        (game, stand_pat, alpha, false)
      (st.2.2.1, st.1)

/-- `SearchAsync::minimax`: White maximises, Black minimises; the side in
check extends the horizon by one; at the horizon control passes to
`qsearch` with `max_depth + 3`.  A position with an empty legal-move list
falls through the loop and returns the initial `f64::MIN` / `f64::MAX`. -/
def SearchAsync.minimax (env : SearchEnv) :
    Nat → GameState → List Move → Nat → Nat → Bool → Int → Int → Int × GameState
  | 0, game, _, _, _, _, _, _ => (0, game)
  | fuel+1, game, legal_moves, max_depth0, depth, in_check, alpha0, beta0 =>
    let max_depth := if in_check = true then max_depth0 + 1 else max_depth0
    if depth ≥ max_depth then
      SearchAsync.qsearch env (fuel+1) game legal_moves (max_depth + 3) depth in_check alpha0 beta0
    else
      let castling_right_long := game.board.castling_right_long
      let castling_right_short := game.board.castling_right_short
      let half_move_of_last_capture := game.half_move_of_last_capture
      if game.board.side_to_move = .White then
        let st := legal_moves.foldl (fun st m =>
          let game := st.1
          let best_eval := st.2.1
          let alpha := st.2.2.1
          let done := st.2.2.2
          if done = true then st
          else
            let g1 := game.update_board_with_move env.z m
            let lm := g1.get_legal_moves env.mag
            let lmo := SearchAsync.order_moves lm.1
            let r := SearchAsync.minimax env fuel g1 lmo max_depth (depth+1) lm.2 alpha beta0
            let e := r.1
            let g2 := r.2.update_board_undo_move env.z m
              castling_right_long castling_right_short half_move_of_last_capture
            let best_eval := if e > best_eval then e else best_eval
            let alpha := if e > alpha then e else alpha
            (g2, best_eval, alpha, decide (e ≥ beta0)))
          (game, F64_MIN, alpha0, false)
        (st.2.1, st.1)
      else
        let st := legal_moves.foldl (fun st m =>
          let game := st.1
          let best_eval := st.2.1
          let beta := st.2.2.1
          let done := st.2.2.2
          if done = true then st
          else
            let g1 := game.update_board_with_move env.z m
            let lm := g1.get_legal_moves env.mag
            let lmo := SearchAsync.order_moves lm.1
            let r := SearchAsync.minimax env fuel g1 lmo max_depth (depth+1) lm.2 alpha0 beta
            let e := r.1
            let g2 := r.2.update_board_undo_move env.z m
              castling_right_long castling_right_short half_move_of_last_capture
            let best_eval := if e < best_eval then e else best_eval
            let beta := if e < beta then e else beta
            (g2, best_eval, beta, decide (e ≤ alpha0)))
          (game, F64_MAX, beta0, false)
        (st.2.1, st.1)

/-! ### Blocker-subset enumeration (verification infrastructure for C2)

`get_blocker_from_idx` scatters the low bits of an index onto the set bit
positions of a mask, lowest first.  The definitions below re-express that
enumeration in forms suitable for proof (`scatterPos`, `subsetsList`) and
for kernel computation (`orSubsets`, a depth-`|ps|` divide and conquer). -/

/-- The set-bit positions of a mask, ascending (the order in which
`get_blocker_from_idx` consumes them). -/
def maskBitPosAux : Nat → Nat → List Nat
  | 0, _ => []
  | fuel+1, mask =>
    if mask = 0 then []
    else
      let pos := ctz64 mask
      pos :: maskBitPosAux fuel (Nat.land mask (mask - (1 <<< pos)))

/-- Set-bit positions of a 64-bit mask, ascending. -/
def maskBitPos (mask : Nat) : List Nat := maskBitPosAux 64 mask

/-- Scatter the low bits of `idx` onto the listed positions. -/
def scatterPos : List Nat → Nat → Nat
  | [], _ => 0
  | p :: ps, idx => (if idx.testBit 0 then 1 <<< p else 0) ||| scatterPos ps (idx >>> 1)

/-- All subsets of the mask with the given bit positions, in the order
`get_blocker_from_idx` enumerates them as the index runs over `0..2^k`. -/
def subsetsList : List Nat → List Nat
  | [] => [0]
  | p :: ps => (subsetsList ps).flatMap (fun s => [s, (1 <<< p) ||| s])

/-- OR of `2 ^ f (b ||| s)` over all subsets `s` of the positions `ps`:
a balanced tree of ORs whose value is `2^N - 1` exactly when `f` hits every
table slot, i.e. when the magic index is collision-free on the subsets. -/
def orSubsets (f : Nat → Nat) : List Nat → Nat → Nat
  | [], b => 1 <<< (f b)
  | p :: ps, b => orSubsets f ps b ||| orSubsets f ps (b ||| (1 <<< p))

/-- The collision-freeness computation for one magic: every one of the `2^k`
table slots is hit by some blocker subset. -/
def magicCovers (magic mask bits : Nat) : Bool :=
  orSubsets (fun b => magic_index magic b bits) (maskBitPos mask) 0 = 1 <<< (1 <<< bits) - 1

/-! ### Concrete instances used by the claims -/

/-- A concrete Zobrist table assignment: pairwise distinct powers of two, so
a board's hash is the characteristic sum of its features.  The source draws
the tables from a thread-local RNG at startup; theorems that depend on the
hasher are stated over an arbitrary `ZobristHasher` where possible and
witnessed with this assignment. -/
def basisHasher : ZobristHasher where
  rands := fun s p sq => 1 <<< (sq + 64 * p.idx + 384 * s.idx)
  black_to_move_rand := 1 <<< 768
  castling_right_long_rands := fun n => 1 <<< (769 + n)
  castling_right_short_rands := fun n => 1 <<< (773 + n)
  ep_file_rands := fun f => 1 <<< (777 + f)

/-- Apply a list of moves by successive `update_board_with_move` calls. -/
def applyMoves (z : ZobristHasher) : GameState → List Move → GameState
  | gs, [] => gs
  | gs, m :: ms => applyMoves z (gs.update_board_with_move z m) ms

/-- The boards reached after each make of a move sequence. -/
def reachedBoards (z : ZobristHasher) : GameState → List Move → List Board
  | _, [] => []
  | gs, m :: ms =>
    let gs' := gs.update_board_with_move z m
    gs'.board :: reachedBoards z gs' ms

/-- The boards reached after each make of a move sequence, computed on
boards alone (make plus side flip, as `update_board_with_move` does). -/
def boardTrace : Board → List Move → List Board
  | _, [] => []
  | b, m :: ms =>
    let b' := { b.make_move m with side_to_move := (b.make_move m).side_to_move.opposite }
    b' :: boardTrace b' ms

/-- The states reached after each make of a move sequence. -/
def traceStates (z : ZobristHasher) : GameState → List Move → List GameState
  | _, [] => []
  | gs, m :: ms =>
    let gs' := gs.update_board_with_move z m
    gs' :: traceStates z gs' ms

/-- Check that each move of a sequence is generated by `get_legal_moves` in
the position it is played from, making the moves along the way. -/
def legalTrace (z : ZobristHasher) (mag : Magics) : GameState → List Move → Bool
  | _, [] => true
  | gs, m :: ms =>
    (gs.get_legal_moves mag).1.contains m
      && legalTrace z mag (gs.update_board_with_move z m) ms

/-- An empty board skeleton (no pieces, no rights, White to move). -/
def emptyBoard : Board where
  pawns := (0, 0)
  knights := (0, 0)
  bishops := (0, 0)
  rooks := (0, 0)
  queens := (0, 0)
  king := (0, 0)
  side_to_move := .White
  en_passant_square := 0
  castling_right_long := (false, false)
  castling_right_short := (false, false)

/-- C3 counterexample position: only the two kings (White king h1 = square
0, Black king a8 = square 63), no castling rights, White to move. -/
def c3Board : Board :=
  { emptyBoard with king := (1 <<< 0, 1 <<< 63) }

/-- The 18-square ring (ranks 1..5, files 1..6) that the White king walks
in the C3 counterexample, one king step at a time. -/
def c3Ring : List Nat :=
  [9, 10, 11, 12, 13, 14, 22, 30, 38, 46, 45, 44, 43, 42, 41, 33, 25, 17]

/-- White's j-th move in the C3 counterexample: the next ring step.  The
White king starts on square 0 and first steps onto the ring at square 9. -/
def c3WhiteMove (j : Nat) : Move :=
  if j = 0 then ⟨0, 9, .Quiet, .King, .White⟩
  else ⟨c3Ring.getD ((j - 1) % 18) 0, c3Ring.getD (j % 18) 0, .Quiet, .King, .White⟩

/-- Black's j-th move in the C3 counterexample: shuttle a8 = 63 and b8 = 62. -/
def c3BlackMove (j : Nat) : Move :=
  if j % 2 = 0 then ⟨63, 62, .Quiet, .King, .Black⟩ else ⟨62, 63, .Quiet, .King, .Black⟩

/-- The k-th half-move (0-based) of the C3 counterexample game. -/
def c3MoveAt (k : Nat) : Move :=
  if k % 2 = 0 then c3WhiteMove (k / 2) else c3BlackMove (k / 2)

/-- The 99 half-moves of the C3 counterexample game. -/
def c3Moves : List Move := (List.range 99).map c3MoveAt

/-- The board of the C3 counterexample game after `k` half-moves, in closed
form: after `k` half-moves White has made `(k+1)/2` king steps along the
ring and Black has shuttled `k/2` times between a8 = 63 and b8 = 62. -/
def c3BoardAt (k : Nat) : Board :=
  { emptyBoard with
    king := ((if (k + 1) / 2 = 0 then 1 <<< 0
              else 1 <<< (c3Ring.getD (((k + 1) / 2 - 1) % 18) 0)),
             if (k / 2) % 2 = 1 then 1 <<< 62 else 1 <<< 63)
    side_to_move := if k % 2 = 0 then .White else .Black }

/-- The state of the C3 counterexample game after its 99 half-moves. -/
def c3Final : GameState := applyMoves basisHasher (GameState.from_board c3Board) c3Moves

/-- C3 witness position: a White queen on h1 = 0 and a Black queen on
a8 = 63 (the shuttle board of the repository's threefold test). -/
def c3WitnessBoard : Board :=
  { emptyBoard with queens := (1 <<< 0, 1 <<< 63) }

/-- The queen shuttle: Qh1-g1, Qa8-b8, Qg1-h1, Qb8-a8, repeated. -/
def c3WitnessMoves (n : Nat) : List Move :=
  (List.range n).map fun k =>
    if k % 4 = 0 then ⟨0, 1, .Quiet, .Queen, .White⟩
    else if k % 4 = 1 then ⟨63, 62, .Quiet, .Queen, .Black⟩
    else if k % 4 = 2 then ⟨1, 0, .Quiet, .Queen, .White⟩
    else ⟨62, 63, .Quiet, .Queen, .Black⟩

/-- C4 failing position: White knight b3 = 41, White king e1 = 3, Black
rook h8 = 56 (its original short-castling corner, right still set), Black
king e8 = 59; White to move. -/
def c4Board : Board :=
  { emptyBoard with
    knights := (1 <<< 41, 0)
    rooks := (0, 1 <<< 56)
    king := (1 <<< 3, 1 <<< 59)
    castling_right_short := (false, true) }

/-- The C4 move: the knight captures the rook on its corner square 56. -/
def c4Move : Move := ⟨41, 56, .Capture .Rook, .Knight, .White⟩

/-- C5 failing position: White king e1 = 3 and rook h1 = 0 with the short
right set, a Black knight on f1 = 2 (between king and rook), Black king on
e8 = 59; White to move, nobody in check, squares 1 and 2 unattacked. -/
def c5Board : Board :=
  { emptyBoard with
    knights := (0, 1 <<< 2)
    rooks := (1 <<< 0, 0)
    king := (1 <<< 3, 1 <<< 59)
    castling_right_short := (true, false) }

/-- C8 failing position: a Black pawn on g2 = 9 about to promote, kings on
h4 = 32 (White) and a8 = 63 (Black); Black to move, no EP target. -/
def c8Board : Board :=
  { emptyBoard with
    pawns := (0, 1 <<< 9)
    king := (1 <<< 32, 1 <<< 63)
    side_to_move := .Black }

/-- The bogus C8 move: a quiet diagonal promotion onto the empty square 0. -/
def c8Move : Move := ⟨9, 0, .Promotion .Queen, .Pawn, .Black⟩

/-- C6 checkmate position: Black king a8 = 63 mated by White rooks on
h2-rank squares 15 (covering the a-file) and 14 (covering the b-file);
White king h1 = 0; Black to move with no legal reply. -/
def c6MateBoard : Board :=
  { emptyBoard with
    rooks := (1 <<< 15 ||| 1 <<< 14, 0)
    king := (1 <<< 0, 1 <<< 63)
    side_to_move := .Black }

/-- C6 stalemate position: Black king a8 = 63, White rooks on b2 = 14
(covering the b-file) and h7 = 48 (covering rank 7), White king h1 = 0;
Black to move with no legal reply and not in check. -/
def c6StaleBoard : Board :=
  { emptyBoard with
    rooks := (1 <<< 14 ||| 1 <<< 48, 0)
    king := (1 <<< 0, 1 <<< 63)
    side_to_move := .Black }

/-- A search environment over the real table-based oracle with the basis
hasher and the zero evaluator (the claims under test are independent of the
evaluator's values). -/
def c6Env : SearchEnv := ⟨basisHasher, precompMagics, fun _ => 0⟩

/-- C1 failing run: from the start position, the double push h2-h4 (8 to
24) sets the EP square 16; Black then plays the quiet pawn push 48 to 40;
make followed by undo with the caller-saved scalars. -/
def c1G1 : GameState :=
  GameState.new.update_board_with_move basisHasher ⟨8, 24, .Quiet, .Pawn, .White⟩

/-- The Black reply in the C1 failing run. -/
def c1M2 : Move := ⟨48, 40, .Quiet, .Pawn, .Black⟩

/-- The C1 state after make and undo of the Black reply. -/
def c1G3 : GameState :=
  (c1G1.update_board_with_move basisHasher c1M2).update_board_undo_move basisHasher c1M2
    c1G1.board.castling_right_long c1G1.board.castling_right_short
    c1G1.half_move_of_last_capture

/-- Per-square soundness data for one rook magic: the mask's bit-position
list has exactly the table-index width many entries, OR-ing those positions
rebuilds the mask, and the magic index hits every table slot (is
collision-free on the mask's subsets). -/
def rookSquareOK (sq : Nat) : Bool :=
  decide ((maskBitPos (rook_masks sq)).length = rookBits sq)
    && decide ((maskBitPos (rook_masks sq)).foldl (fun a p => a ||| (1 <<< p)) 0 = rook_masks sq)
    && magicCovers (rookMagic sq) (rook_masks sq) (rookBits sq)

/-- Per-square soundness data for one bishop magic. -/
def bishopSquareOK (sq : Nat) : Bool :=
  decide ((maskBitPos (bishop_masks sq)).length = bishopBits sq)
    && decide ((maskBitPos (bishop_masks sq)).foldl (fun a p => a ||| (1 <<< p)) 0
        = bishop_masks sq)
    && magicCovers (bishopMagic sq) (bishop_masks sq) (bishopBits sq)

/-- All 64 rook squares pass the per-square magic soundness check. -/
def rookTablesOK : Bool := (List.range 64).all rookSquareOK

/-- All 64 bishop squares pass the per-square magic soundness check. -/
def bishopTablesOK : Bool := (List.range 64).all bishopSquareOK

/-- Every piece bitboard of the board fits in 64 bits (the `u64` range
invariant every reachable Rust `Board` satisfies by construction). -/
def boardWF (b : Board) : Bool :=
  Side.VALUES.all fun s => Piece.VALUES.all fun p => decide (b.bb p s < 2 ^ 64)

/-- The cached occupation boards agree with the board's piece bitboards
(the invariant `update_occupation_boards` is meant to maintain). -/
def occupationCoherent (gs : GameState) : Prop :=
  gs.occupation_boards
      = (gs.board.occupation_board .White, gs.board.occupation_board .Black)
    ∧ gs.comp_occupation_board
      = gs.board.occupation_board .White ||| gs.board.occupation_board .Black

/-- Check that each move of a sequence is generated by `get_legal_moves` in
the position it is played from and that each position along the way has
64-bit piece bitboards, making the moves along the way. -/
def legalWFTrace (z : ZobristHasher) (mag : Magics) : GameState → List Move → Bool
  | _, [] => true
  | gs, m :: ms =>
    boardWF gs.board && (gs.get_legal_moves mag).1.contains m
      && legalWFTrace z mag (gs.update_board_with_move z m) ms

/-! ### Lemmas: bit-level basics -/

lemma exists_testBit_of_ne_zero {x : Nat} (h : x ≠ 0) : ∃ i, x.testBit i = true := by
  by_contra hc
  push_neg at hc
  exact h (Nat.eq_of_testBit_eq fun i => by
    rw [Nat.zero_testBit]
    exact Bool.eq_false_iff.mpr (hc i))

lemma ctzAux_lt {x : Nat} :
    ∀ (fuel i0 j : Nat), i0 ≤ j → j < i0 + fuel → x.testBit j = true →
      ctzAux fuel i0 x < i0 + fuel := by
  intro fuel
  induction fuel with
  | zero => intro i0 j h1 h2 _; omega
  | succ n ih =>
    intro i0 j h1 h2 hbit
    simp only [ctzAux]
    split
    · omega
    · rename_i hb
      have hj : i0 + 1 ≤ j := by
        rcases Nat.eq_or_lt_of_le h1 with he | hl
        · exact absurd (he ▸ hbit) hb
        · omega
      have := ih (i0 + 1) j hj (by omega) hbit
      omega

lemma ctz64_lt_64 {x : Nat} (hne : x ≠ 0) (hlt : x < 2 ^ 64) : ctz64 x < 64 := by
  obtain ⟨i, hi⟩ := exists_testBit_of_ne_zero hne
  have hi64 : i < 64 := by
    by_contra hge
    have hx : x < 2 ^ i :=
      lt_of_lt_of_le hlt (Nat.pow_le_pow_right (by norm_num) (by omega))
    simp [Nat.testBit_eq_false_of_lt hx] at hi
  have h := ctzAux_lt 64 0 i (Nat.zero_le _) (by omega) hi
  simpa [ctz64] using h

lemma land_shiftLeft_ne_zero_iff (idx i : Nat) :
    (Nat.land idx (1 <<< i) ≠ 0) ↔ idx.testBit i = true := by
  have h : Nat.land idx (1 <<< i) = idx &&& 2 ^ i := by
    rw [← Nat.one_shiftLeft]
    rfl
  rw [h, Nat.and_two_pow]
  cases hb : idx.testBit i
  · simp
  · simp only [Bool.toNat_true, one_mul, ne_eq, iff_true]
    exact (Nat.two_pow_pos i).ne'

/-! ### Lemmas: the blocker-subset enumeration (C2 infrastructure) -/

lemma blockerLoopAux_eq :
    ∀ (fuel idx mask i acc : Nat),
      blockerLoopAux fuel idx mask i acc
        = acc ||| scatterPos (maskBitPosAux fuel mask) (idx >>> i) := by
  intro fuel
  induction fuel with
  | zero => intro idx mask i acc; simp [blockerLoopAux, maskBitPosAux, scatterPos]
  | succ n ih =>
    intro idx mask i acc
    simp only [blockerLoopAux, maskBitPosAux]
    split
    · simp [scatterPos]
    · simp only [scatterPos, ih]
      have hbit : (idx >>> i).testBit 0 = idx.testBit i := by
        rw [Nat.testBit_shiftRight, Nat.add_zero]
      have hshift : idx >>> i >>> 1 = idx >>> (i + 1) := by
        rw [Nat.shiftRight_add]
      rw [hbit, hshift]
      by_cases hc : idx.testBit i = true
      · rw [if_pos ((land_shiftLeft_ne_zero_iff idx i).mpr hc), if_pos hc, Nat.lor_assoc]
      · rw [if_neg (fun h => hc ((land_shiftLeft_ne_zero_iff idx i).mp h)),
          if_neg hc, Nat.zero_or]

lemma get_blocker_from_idx_eq_scatter (idx mask : Nat) :
    get_blocker_from_idx idx mask = scatterPos (maskBitPos mask) idx := by
  rw [get_blocker_from_idx, maskBitPos, blockerLoopAux_eq, Nat.shiftRight_zero, Nat.zero_or]

lemma range_two_mul_map {β : Type} (f : Nat → β) :
    ∀ n, (List.range (2 * n)).map f
      = (List.range n).flatMap (fun j => [f (2 * j), f (2 * j + 1)]) := by
  intro n
  induction n with
  | zero => simp
  | succ m ih =>
    have h2 : 2 * (m + 1) = (2 * m) + 1 + 1 := by omega
    rw [h2, List.range_succ, List.range_succ, List.range_succ, List.flatMap_append]
    simp only [List.map_append, ih]
    simp [Nat.mul_comm]

lemma subsetsList_eq_map_scatter :
    ∀ (ps : List Nat),
      subsetsList ps = (List.range (2 ^ ps.length)).map (scatterPos ps) := by
  intro ps
  induction ps with
  | nil => simp [subsetsList, List.range_succ, scatterPos]
  | cons p ps ih =>
    have hlen : (2 : Nat) ^ (p :: ps).length = 2 * 2 ^ ps.length := by
      simp [List.length_cons, Nat.pow_succ, Nat.mul_comm]
    rw [hlen, range_two_mul_map]
    have hpt : ∀ j : Nat,
        ([scatterPos (p :: ps) (2 * j), scatterPos (p :: ps) (2 * j + 1)] : List Nat)
          = [scatterPos ps j, (1 <<< p) ||| scatterPos ps j] := by
      intro j
      have e1 : (2 * j).testBit 0 = false := by
        rw [Nat.testBit_zero]
        simp [Nat.mul_mod_right]
      have e2 : (2 * j + 1).testBit 0 = true := by
        rw [Nat.testBit_zero]
        simp [Nat.add_mod, Nat.mul_mod_right]
      have e3 : (2 * j) >>> 1 = j := by
        rw [Nat.shiftRight_one]
        omega
      have e4 : (2 * j + 1) >>> 1 = j := by
        rw [Nat.shiftRight_one]
        omega
      simp [scatterPos, e1, e2, e3, e4, Nat.zero_or]
    calc subsetsList (p :: ps)
        = (subsetsList ps).flatMap (fun s => [s, (1 <<< p) ||| s]) := rfl
      _ = ((List.range (2 ^ ps.length)).map (scatterPos ps)).flatMap
            (fun s => [s, (1 <<< p) ||| s]) := by rw [ih]
      _ = (List.range (2 ^ ps.length)).flatMap
            (fun j => [scatterPos ps j, (1 <<< p) ||| scatterPos ps j]) := by
            rw [List.flatMap_map]
      _ = (List.range (2 ^ ps.length)).flatMap
            (fun j => [scatterPos (p :: ps) (2 * j), scatterPos (p :: ps) (2 * j + 1)]) := by
            simp only [hpt]

lemma mem_subsetsList {b : Nat} :
    ∀ (ps : List Nat), (∀ i, b.testBit i = true → i ∈ ps) → b ∈ subsetsList ps := by
  intro ps
  induction ps generalizing b with
  | nil =>
    intro h
    have hb : b = 0 := Nat.eq_of_testBit_eq fun i => by
      rw [Nat.zero_testBit]
      cases hbit : b.testBit i
      · rfl
      · exact absurd (h i hbit) (List.not_mem_nil i)
    simp [hb, subsetsList]
  | cons p ps ih =>
    intro h
    rw [subsetsList, List.mem_flatMap]
    cases hb : b.testBit p
    case false =>
      refine ⟨b, ih (fun i hi => ?_), by simp⟩
      rcases List.mem_cons.mp (h i hi) with he | hm
      · rw [he] at hi
        rw [hi] at hb
        cases hb
      · exact hm
    case true =>
      have hcbit : ∀ i, (b ^^^ 2 ^ p).testBit i = if i = p then false else b.testBit i := by
        intro i
        rw [Nat.testBit_xor]
        by_cases hip : i = p
        · subst hip
          rw [if_pos rfl, Nat.testBit_two_pow_self, hb]
          rfl
        · rw [if_neg hip, Nat.testBit_two_pow_of_ne (fun he => hip he.symm)]
          cases b.testBit i <;> rfl
      have hsub : (b ^^^ 2 ^ p) ∈ subsetsList ps := by
        apply ih
        intro i hi
        have hip : i ≠ p := by
          intro he
          rw [he] at hi
          simp [hcbit p] at hi
        rw [hcbit i, if_neg hip] at hi
        rcases List.mem_cons.mp (h i hi) with he | hm
        · exact absurd he hip
        · exact hm
      refine ⟨b ^^^ 2 ^ p, hsub, ?_⟩
      have hbc : (1 <<< p) ||| (b ^^^ 2 ^ p) = b := by
        apply Nat.eq_of_testBit_eq
        intro i
        rw [Nat.testBit_lor, Nat.one_shiftLeft, hcbit i]
        by_cases hip : i = p
        · subst hip
          rw [if_pos rfl, Nat.testBit_two_pow_self, hb]
          rfl
        · rw [if_neg hip, Nat.testBit_two_pow_of_ne (fun he => hip he.symm)]
          cases b.testBit i <;> rfl
      rw [hbc]
      simp

lemma testBit_foldl_or {i : Nat} :
    ∀ (ps : List Nat) (acc : Nat),
      (ps.foldl (fun a p => a ||| (1 <<< p)) acc).testBit i = true →
      acc.testBit i = true ∨ i ∈ ps := by
  intro ps
  induction ps with
  | nil => intro acc h; exact Or.inl h
  | cons p ps ih =>
    intro acc h
    rcases ih _ h with hacc | hmem
    · rw [Nat.testBit_lor, Nat.one_shiftLeft] at hacc
      rcases Bool.or_eq_true_iff.mp hacc with h1 | h2
      · exact Or.inl h1
      · by_cases hip : i = p
        · exact Or.inr (by simp [hip])
        · rw [Nat.testBit_two_pow_of_ne (fun he => hip he.symm)] at h2
          cases h2
    · exact Or.inr (List.mem_cons_of_mem _ hmem)

lemma testBit_orSubsets (f : Nat → Nat) :
    ∀ (ps : List Nat) (b j : Nat),
      (orSubsets f ps b).testBit j = true ↔ ∃ s ∈ subsetsList ps, f (b ||| s) = j := by
  intro ps
  induction ps with
  | nil =>
    intro b j
    simp only [orSubsets, subsetsList, Nat.one_shiftLeft, List.mem_singleton]
    constructor
    · intro h
      refine ⟨0, rfl, ?_⟩
      by_contra hne
      rw [Nat.testBit_two_pow_of_ne (by simpa [Nat.or_zero] using hne)] at h
      cases h
    · rintro ⟨s, hs, hfs⟩
      subst hs
      rw [Nat.or_zero] at hfs
      rw [hfs]
      exact Nat.testBit_two_pow_self
  | cons p ps ih =>
    intro b j
    rw [orSubsets, Nat.testBit_lor, Bool.or_eq_true_iff, ih, ih]
    constructor
    · rintro (⟨s, hs, hfs⟩ | ⟨s, hs, hfs⟩)
      · refine ⟨s, ?_, hfs⟩
        rw [subsetsList, List.mem_flatMap]
        exact ⟨s, hs, by simp⟩
      · refine ⟨(1 <<< p) ||| s, ?_, ?_⟩
        · rw [subsetsList, List.mem_flatMap]
          exact ⟨s, hs, by simp⟩
        · rw [← Nat.lor_assoc]
          exact hfs
    · rintro ⟨x, hx, hfx⟩
      rw [subsetsList, List.mem_flatMap] at hx
      obtain ⟨a, ha, hxa⟩ := hx
      rcases List.mem_cons.mp hxa with he | hxa2
      · rw [he] at hfx
        exact Or.inl ⟨a, ha, hfx⟩
      · rcases List.mem_cons.mp hxa2 with he | h0
        · rw [he] at hfx
          rw [← Nat.lor_assoc] at hfx
          exact Or.inr ⟨a, ha, hfx⟩
        · exact absurd h0 (List.not_mem_nil x)

/-! ### Lemmas: the per-square magic table checks hold (C2, S5) -/

set_option maxHeartbeats 8000000 in
lemma bishopTablesOK_eq : bishopTablesOK = true := by decide

set_option maxHeartbeats 80000000 in
lemma rookTablesOK_eq : rookTablesOK = true := by decide

/-! ### Lemmas: collision-freeness and table reads (C2) -/

lemma rookSquareOK_facts (sq : Nat) (hsq : sq < 64) :
    (maskBitPos (rook_masks sq)).length = rookBits sq
      ∧ (maskBitPos (rook_masks sq)).foldl (fun a p => a ||| (1 <<< p)) 0 = rook_masks sq
      ∧ magicCovers (rookMagic sq) (rook_masks sq) (rookBits sq) = true := by
  have h := rookTablesOK_eq
  rw [rookTablesOK, List.all_eq_true] at h
  have h2 := h sq (List.mem_range.mpr hsq)
  rw [rookSquareOK, Bool.and_eq_true, Bool.and_eq_true,
    decide_eq_true_eq, decide_eq_true_eq] at h2
  exact ⟨h2.1.1, h2.1.2, h2.2⟩

lemma bishopSquareOK_facts (sq : Nat) (hsq : sq < 64) :
    (maskBitPos (bishop_masks sq)).length = bishopBits sq
      ∧ (maskBitPos (bishop_masks sq)).foldl (fun a p => a ||| (1 <<< p)) 0 = bishop_masks sq
      ∧ magicCovers (bishopMagic sq) (bishop_masks sq) (bishopBits sq) = true := by
  have h := bishopTablesOK_eq
  rw [bishopTablesOK, List.all_eq_true] at h
  have h2 := h sq (List.mem_range.mpr hsq)
  rw [bishopSquareOK, Bool.and_eq_true, Bool.and_eq_true,
    decide_eq_true_eq, decide_eq_true_eq] at h2
  exact ⟨h2.1.1, h2.1.2, h2.2⟩

lemma pairwise_ne_of_covers (l : List Nat) (f : Nat → Nat) (n : Nat)
    (hlen : l.length = n) (hcov : ∀ j, j < n → ∃ s ∈ l, f s = j) :
    l.Pairwise (fun a b => f a ≠ f b) := by
  have hsub : List.range n ⊆ l.map f := by
    intro j hj
    obtain ⟨s, hs, hfs⟩ := hcov j (List.mem_range.mp hj)
    exact List.mem_map.mpr ⟨s, hs, hfs⟩
  have hsp : List.Subperm (List.range n) (l.map f) :=
    List.subperm_of_subset (List.nodup_range n) hsub
  have hperm : List.Perm (List.range n) (l.map f) :=
    hsp.perm_of_length_le (by rw [List.length_map, hlen, List.length_range])
  have hnd : (l.map f).Nodup := hperm.nodup_iff.mp (List.nodup_range n)
  exact List.pairwise_map.mp hnd

lemma covers_of_magicCovers (magic mask bits : Nat) (h : magicCovers magic mask bits = true) :
    ∀ j, j < 2 ^ bits →
      ∃ s ∈ subsetsList (maskBitPos mask), magic_index magic s bits = j := by
  rw [magicCovers, decide_eq_true_eq] at h
  intro j hj
  have hbit : (orSubsets (fun b => magic_index magic b bits) (maskBitPos mask) 0).testBit j
      = true := by
    rw [h, Nat.one_shiftLeft, Nat.one_shiftLeft, Nat.testBit_two_pow_sub_one]
    exact decide_eq_true hj
  obtain ⟨s, hs, hfs⟩ := (testBit_orSubsets _ _ _ _).mp hbit
  rw [Nat.zero_or] at hfs
  exact ⟨s, hs, hfs⟩

lemma table_get_map_skip (f g : Nat → Nat) (k : Nat) :
    ∀ (l : List Nat) (acc : Nat), (∀ x ∈ l, f x ≠ k) →
      ((l.map fun s => (f s, g s)).foldl (fun acc iv => if iv.1 = k then iv.2 else acc) acc)
        = acc := by
  intro l
  induction l with
  | nil => intro acc _; rfl
  | cons a l ih =>
    intro acc h
    have hne : f a ≠ k := h a (List.mem_cons_self a l)
    show ((l.map fun s => (f s, g s)).foldl (fun acc iv => if iv.1 = k then iv.2 else acc)
      (if f a = k then g a else acc)) = acc
    rw [if_neg hne]
    exact ih acc fun x hx => h x (List.mem_cons_of_mem a hx)

lemma table_get_map (f g : Nat → Nat) :
    ∀ (l : List Nat), l.Pairwise (fun a b => f a ≠ f b) → ∀ b, b ∈ l →
      table_get (l.map fun s => (f s, g s)) (f b) = g b := by
  intro l
  induction l with
  | nil => intro _ b hb; exact absurd hb (List.not_mem_nil b)
  | cons a l ih =>
    intro hp b hb
    have hpa : ∀ x ∈ l, f a ≠ f x := (List.pairwise_cons.mp hp).1
    have hpl := (List.pairwise_cons.mp hp).2
    rcases List.mem_cons.mp hb with he | hm
    · subst he
      rw [table_get]
      show ((l.map fun s => (f s, g s)).foldl
        (fun acc iv => if iv.1 = f b then iv.2 else acc) (if f b = f b then g b else 0)) = g b
      rw [if_pos rfl]
      exact table_get_map_skip f g (f b) l (g b) fun x hx => (hpa x hx).symm
    · have hne : f a ≠ f b := hpa b hm
      rw [table_get]
      show ((l.map fun s => (f s, g s)).foldl
        (fun acc iv => if iv.1 = f b then iv.2 else acc) (if f a = f b then g a else 0)) = g b
      rw [if_neg hne]
      exact ih hpl b hm

lemma rook_write_list_eq (sq : Nat)
    (hlen : (maskBitPos (rook_masks sq)).length = rookBits sq) :
    rook_write_list sq = (subsetsList (maskBitPos (rook_masks sq))).map
      (fun s => (magic_index (rookMagic sq) s (rookBits sq), get_rook_rays sq s)) := by
  simp only [rook_write_list, get_blocker_from_idx_eq_scatter]
  rw [subsetsList_eq_map_scatter, List.map_map, ← hlen]
  rfl

lemma bishop_write_list_eq (sq : Nat)
    (hlen : (maskBitPos (bishop_masks sq)).length = bishopBits sq) :
    bishop_write_list sq = (subsetsList (maskBitPos (bishop_masks sq))).map
      (fun s => (magic_index (bishopMagic sq) s (bishopBits sq), get_bishop_rays sq s)) := by
  simp only [bishop_write_list, get_blocker_from_idx_eq_scatter]
  rw [subsetsList_eq_map_scatter, List.map_map, ← hlen]
  rfl

lemma land_testBit (x y i : Nat) :
    (Nat.land x y).testBit i = (x.testBit i && y.testBit i) :=
  Nat.testBit_land x y i

lemma mem_of_subset_mask {b mask : Nat}
    (hb : Nat.land b mask = b)
    (hmask : (maskBitPos mask).foldl (fun a p => a ||| (1 <<< p)) 0 = mask) :
    b ∈ subsetsList (maskBitPos mask) := by
  apply mem_subsetsList
  intro i hi
  have hbi : mask.testBit i = true := by
    rw [← hb, land_testBit] at hi
    cases hm : mask.testBit i
    · rw [hm, Bool.and_false] at hi; cases hi
    · rfl
  rw [← hmask] at hbi
  rcases testBit_foldl_or _ _ hbi with h0 | hmem
  · rw [Nat.zero_testBit] at h0; cases h0
  · exact hmem

lemma get_rook_moves_eq_rays (sq b : Nat) (hsq : sq < 64)
    (hb : Nat.land b (rook_masks sq) = b) :
    get_rook_moves sq b = get_rook_rays sq b := by
  obtain ⟨hlen, hmask, hcov⟩ := rookSquareOK_facts sq hsq
  have hmem : b ∈ subsetsList (maskBitPos (rook_masks sq)) := mem_of_subset_mask hb hmask
  have hlen2 : (subsetsList (maskBitPos (rook_masks sq))).length = 2 ^ rookBits sq := by
    rw [subsetsList_eq_map_scatter, List.length_map, List.length_range, hlen]
  have hpair := pairwise_ne_of_covers _ _ _ hlen2 (covers_of_magicCovers _ _ _ hcov)
  rw [get_rook_moves, rook_write_list_eq sq hlen]
  exact table_get_map _ _ _ hpair b hmem

lemma get_bishop_moves_eq_rays (sq b : Nat) (hsq : sq < 64)
    (hb : Nat.land b (bishop_masks sq) = b) :
    get_bishop_moves sq b = get_bishop_rays sq b := by
  obtain ⟨hlen, hmask, hcov⟩ := bishopSquareOK_facts sq hsq
  have hmem : b ∈ subsetsList (maskBitPos (bishop_masks sq)) := mem_of_subset_mask hb hmask
  have hlen2 : (subsetsList (maskBitPos (bishop_masks sq))).length = 2 ^ bishopBits sq := by
    rw [subsetsList_eq_map_scatter, List.length_map, List.length_range, hlen]
  have hpair := pairwise_ne_of_covers _ _ _ hlen2 (covers_of_magicCovers _ _ _ hcov)
  rw [get_bishop_moves, bishop_write_list_eq sq hlen]
  exact table_get_map _ _ _ hpair b hmem

lemma magic_index_inj_rook (sq b1 b2 : Nat) (hsq : sq < 64)
    (h1 : Nat.land b1 (rook_masks sq) = b1) (h2 : Nat.land b2 (rook_masks sq) = b2)
    (heq : magic_index (rookMagic sq) b1 (rookBits sq)
      = magic_index (rookMagic sq) b2 (rookBits sq)) : b1 = b2 := by
  obtain ⟨hlen, hmask, hcov⟩ := rookSquareOK_facts sq hsq
  have hm1 := mem_of_subset_mask h1 hmask
  have hm2 := mem_of_subset_mask h2 hmask
  have hlen2 : (subsetsList (maskBitPos (rook_masks sq))).length = 2 ^ rookBits sq := by
    rw [subsetsList_eq_map_scatter, List.length_map, List.length_range, hlen]
  have hpair := pairwise_ne_of_covers _ _ _ hlen2 (covers_of_magicCovers _ _ _ hcov)
  have hsymm : Symmetric (fun a b : Nat =>
      magic_index (rookMagic sq) a (rookBits sq) ≠ magic_index (rookMagic sq) b (rookBits sq)) :=
    fun _ _ h he => h he.symm
  by_contra hne
  exact hpair.forall hsymm hm1 hm2 hne heq

lemma magic_index_inj_bishop (sq b1 b2 : Nat) (hsq : sq < 64)
    (h1 : Nat.land b1 (bishop_masks sq) = b1) (h2 : Nat.land b2 (bishop_masks sq) = b2)
    (heq : magic_index (bishopMagic sq) b1 (bishopBits sq)
      = magic_index (bishopMagic sq) b2 (bishopBits sq)) : b1 = b2 := by
  obtain ⟨hlen, hmask, hcov⟩ := bishopSquareOK_facts sq hsq
  have hm1 := mem_of_subset_mask h1 hmask
  have hm2 := mem_of_subset_mask h2 hmask
  have hlen2 : (subsetsList (maskBitPos (bishop_masks sq))).length = 2 ^ bishopBits sq := by
    rw [subsetsList_eq_map_scatter, List.length_map, List.length_range, hlen]
  have hpair := pairwise_ne_of_covers _ _ _ hlen2 (covers_of_magicCovers _ _ _ hcov)
  have hsymm : Symmetric (fun a b : Nat =>
      magic_index (bishopMagic sq) a (bishopBits sq)
        ≠ magic_index (bishopMagic sq) b (bishopBits sq)) :=
    fun _ _ h he => h he.symm
  by_contra hne
  exact hpair.forall hsymm hm1 hm2 hne heq

/-! ### Lemmas: the table oracle and the ray oracle agree throughout the
move generator (conditioned on 64-bit boards) -/

lemma foldBitsAux_congr {α : Type} (f g : α → Nat → α)
    (hfg : ∀ acc sq, sq < 64 → f acc sq = g acc sq) :
    ∀ (fuel : Nat) (acc : α) (bb : Nat), bb < 2 ^ 64 →
      foldBitsAux fuel f acc bb = foldBitsAux fuel g acc bb := by
  intro fuel
  induction fuel with
  | zero => intro acc bb _; rfl
  | succ n ih =>
    intro acc bb hbb
    simp only [foldBitsAux]
    split
    · rfl
    · rename_i hne
      have hsq : ctz64 bb < 64 := ctz64_lt_64 hne hbb
      rw [hfg acc (ctz64 bb) hsq]
      exact ih _ _ (lt_of_le_of_lt Nat.and_le_left hbb)

lemma foldBits_congr {α : Type} (f g : α → Nat → α)
    (hfg : ∀ acc sq, sq < 64 → f acc sq = g acc sq) (init : α) (bb : Nat)
    (hbb : bb < 2 ^ 64) : foldBits f init bb = foldBits g init bb :=
  foldBitsAux_congr f g hfg 64 init bb hbb

lemma slider_moves_oracle (gs : GameState) (piece : Piece) (square : Nat) (hsq : square < 64) :
    gs.slider_moves precompMagics piece square = gs.slider_moves rayMagics piece square := by
  have hr : Nat.land (Nat.land gs.comp_occupation_board (rook_masks square)) (rook_masks square)
      = Nat.land gs.comp_occupation_board (rook_masks square) := by
    show gs.comp_occupation_board &&& rook_masks square &&& rook_masks square
      = gs.comp_occupation_board &&& rook_masks square
    rw [Nat.land_assoc, Nat.and_self]
  have hbm : Nat.land (Nat.land gs.comp_occupation_board (bishop_masks square))
      (bishop_masks square) = Nat.land gs.comp_occupation_board (bishop_masks square) := by
    show gs.comp_occupation_board &&& bishop_masks square &&& bishop_masks square
      = gs.comp_occupation_board &&& bishop_masks square
    rw [Nat.land_assoc, Nat.and_self]
  cases piece with
  | Rook =>
    simp only [GameState.slider_moves, get_piece_blocker_mask, precompMagics, rayMagics]
    exact get_rook_moves_eq_rays square _ hsq hr
  | Bishop =>
    simp only [GameState.slider_moves, get_piece_blocker_mask, precompMagics, rayMagics]
    exact get_bishop_moves_eq_rays square _ hsq hbm
  | Queen =>
    simp only [GameState.slider_moves, get_piece_blocker_mask, precompMagics, rayMagics]
    rw [get_rook_moves_eq_rays square _ hsq hr, get_bishop_moves_eq_rays square _ hsq hbm]
  | Pawn => rfl
  | Knight => rfl
  | King => rfl

lemma glm_mask_oracle (gs : GameState) (piece : Piece) (enemy_attack_bb : Nat)
    (pin_masks : Nat → Nat) (move_list : List Move) (mask : Nat)
    (hbb : gs.board.bb piece gs.board.side_to_move < 2 ^ 64) :
    gs.get_legal_moves_for_piece_with_mask precompMagics piece enemy_attack_bb pin_masks
        move_list mask
      = gs.get_legal_moves_for_piece_with_mask rayMagics piece enemy_attack_bb pin_masks
        move_list mask := by
  rw [GameState.get_legal_moves_for_piece_with_mask,
    GameState.get_legal_moves_for_piece_with_mask]
  refine foldBits_congr _ _ ?_ _ _ hbb
  intro acc sq hsq
  simp only [slider_moves_oracle gs piece sq hsq]

lemma enemy_attacks_oracle (gs : GameState)
    (hbb : ∀ p : Piece, gs.board.bb p gs.board.side_to_move.opposite < 2 ^ 64) :
    gs.enemy_attacks precompMagics = gs.enemy_attacks rayMagics := by
  simp only [GameState.enemy_attacks]
  apply List.foldl_ext
  intro acc piece hp
  refine foldBits_congr _ _ ?_ _ _ (hbb piece)
  intro a sq hsq
  simp only [slider_moves_oracle gs piece sq hsq]

lemma boardWF_lt {b : Board} (h : boardWF b = true) :
    ∀ (p : Piece) (s : Side), b.bb p s < 2 ^ 64 := by
  intro p s
  rw [boardWF, List.all_eq_true] at h
  have hs := h s (by cases s <;> simp [Side.VALUES])
  rw [List.all_eq_true] at hs
  have hp := hs p (by cases p <;> simp [Piece.VALUES])
  exact of_decide_eq_true hp

lemma get_legal_moves_oracle (gs : GameState)
    (hbb : ∀ (p : Piece) (s : Side), gs.board.bb p s < 2 ^ 64) :
    gs.get_legal_moves precompMagics = gs.get_legal_moves rayMagics := by
  have hea := enemy_attacks_oracle gs (fun p => hbb p _)
  rw [GameState.get_legal_moves, GameState.get_legal_moves, hea]
  simp only [glm_mask_oracle, hbb]

/-! ### Lemmas: projections of the make/undo state updates (C1, C3, C9) -/

lemma update_board_eq (z : ZobristHasher) (gs : GameState) (m : Move) :
    (gs.update_board_with_move z m).board
      = { gs.board.make_move m with
          side_to_move := (gs.board.make_move m).side_to_move.opposite } := by
  simp only [GameState.update_board_with_move, GameState.update_occupation_boards]
  split_ifs <;> rfl

lemma update_pos_hash (z : ZobristHasher) (gs : GameState) (m : Move) :
    (gs.update_board_with_move z m).pos_hash
      = z.hash (gs.update_board_with_move z m).board := by
  simp only [GameState.update_board_with_move, GameState.update_occupation_boards]
  split_ifs <;> rfl

lemma update_counter (z : ZobristHasher) (gs : GameState) (m : Move) :
    (gs.update_board_with_move z m).position_occurance_counter
      = fun k =>
          if k = (gs.update_board_with_move z m).pos_hash
          then gs.position_occurance_counter ((gs.update_board_with_move z m).pos_hash) + 1
          else gs.position_occurance_counter k := by
  simp only [GameState.update_board_with_move, GameState.update_occupation_boards]
  split_ifs <;> rfl

lemma update_threefold (z : ZobristHasher) (gs : GameState) (m : Move) :
    (gs.update_board_with_move z m).threefold_repetition
      = if gs.position_occurance_counter ((gs.update_board_with_move z m).pos_hash) + 1 = 3
        then true else gs.threefold_repetition := by
  simp only [GameState.update_board_with_move, GameState.update_occupation_boards]
  split_ifs <;> rfl

lemma undo_counter (z : ZobristHasher) (gs : GameState) (m : Move)
    (crl crs : Bool × Bool) (hlc : Nat) :
    (gs.update_board_undo_move z m crl crs hlc).position_occurance_counter
      = fun k =>
          if k = gs.pos_hash then gs.position_occurance_counter k - 1
          else gs.position_occurance_counter k := by
  simp only [GameState.update_board_undo_move, GameState.update_occupation_boards]
  split_ifs <;> rfl

lemma undo_threefold (z : ZobristHasher) (gs : GameState) (m : Move)
    (crl crs : Bool × Bool) (hlc : Nat) :
    (gs.update_board_undo_move z m crl crs hlc).threefold_repetition = false := by
  simp only [GameState.update_board_undo_move, GameState.update_occupation_boards]

/-! ### Lemmas: castling rights only ever fall under make (C10) -/

lemma setBB_crs (b : Board) (p : Piece) (s : Side) (v : Nat) :
    (b.setBB p s v).castling_right_short = b.castling_right_short := by
  cases p <;> rfl

lemma setBB_crl (b : Board) (p : Piece) (s : Side) (v : Nat) :
    (b.setBB p s v).castling_right_long = b.castling_right_long := by
  cases p <;> rfl

lemma uepf_crs (b : Board) (m : Move) :
    (b.update_en_passant_flag m).castling_right_short = b.castling_right_short := by
  simp only [Board.update_en_passant_flag]
  split_ifs <;> rfl

lemma uepf_crl (b : Board) (m : Move) :
    (b.update_en_passant_flag m).castling_right_long = b.castling_right_long := by
  simp only [Board.update_en_passant_flag]
  split_ifs <;> rfl

lemma make_move_crs (b : Board) (m : Move) :
    (b.make_move m).castling_right_short
      = ((b.update_en_passant_flag m).update_castling_rights m).castling_right_short := by
  simp only [Board.make_move]
  rcases hmt : m.move_type <;> (try cases hs : m.side) <;> simp [setBB_crs]

lemma make_move_crl (b : Board) (m : Move) :
    (b.make_move m).castling_right_long
      = ((b.update_en_passant_flag m).update_castling_rights m).castling_right_long := by
  simp only [Board.make_move]
  rcases hmt : m.move_type <;> (try cases hs : m.side) <;> simp [setBB_crl]

lemma ucr_mono_short (b : Board) (m : Move) (s : Side) :
    sideGet (b.update_castling_rights m).castling_right_short s = true →
      sideGet b.castling_right_short s = true := by
  simp only [Board.update_castling_rights]
  rcases hp : m.piece <;> (try split_ifs) <;> cases s <;> cases hms : m.side <;>
    simp [sideGet, sideSet]

lemma ucr_mono_long (b : Board) (m : Move) (s : Side) :
    sideGet (b.update_castling_rights m).castling_right_long s = true →
      sideGet b.castling_right_long s = true := by
  simp only [Board.update_castling_rights]
  rcases hp : m.piece <;> (try split_ifs) <;> cases s <;> cases hms : m.side <;>
    simp [sideGet, sideSet]

/-! ### Lemmas: capture priorities are bounded (C7) -/

lemma prio_capture_le (c : Move) (ply : Nat) (kl : Nat → Nat → Move)
    (hc : c.is_capture = true) : Move.prio c ply kl ≤ 60 := by
  obtain ⟨fs, ts, mt, pc, sd⟩ := c
  rcases mt with _ | v | v | _ | _ | p | ⟨v, p⟩
  · simp [Move.is_capture] at hc
  · cases v <;> cases pc <;> simp [Move.prio, MVVLA_TABLE, Piece.idx]
  · cases v <;> cases pc <;> simp [Move.prio, MVVLA_TABLE, Piece.idx]
  · simp [Move.is_capture] at hc
  · simp [Move.is_capture] at hc
  · simp [Move.is_capture] at hc
  · cases v <;> cases pc <;> cases p <;> simp [Move.prio, MVVLA_TABLE, Piece.idx]

/-! ### Lemmas: occurrence counting along traces (C3) -/

lemma threefold_after_third (z : ZobristHasher) (gs : GameState) (m : Move)
    (lm : List Move) (ic : Bool)
    (h3 : gs.position_occurance_counter ((gs.update_board_with_move z m).pos_hash) + 1 = 3)
    (h50 : ((gs.update_board_with_move z m).half_move_number
        - (gs.update_board_with_move z m).half_move_of_last_capture) / 2 ≠ 50) :
    (gs.update_board_with_move z m).get_move_result lm ic
      = some (.Draw .ThreeFoldRepetition) := by
  have hf : (gs.update_board_with_move z m).threefold_repetition = true := by
    rw [update_threefold, if_pos h3]
  simp only [GameState.get_move_result]
  rw [if_neg h50, hf]
  rfl

lemma no_threefold_before (z : ZobristHasher) (gs : GameState) (m : Move)
    (lm : List Move) (ic : Bool)
    (hold : gs.threefold_repetition = false)
    (h3 : gs.position_occurance_counter ((gs.update_board_with_move z m).pos_hash) + 1 ≠ 3) :
    (gs.update_board_with_move z m).get_move_result lm ic
      ≠ some (.Draw .ThreeFoldRepetition) := by
  have hf : (gs.update_board_with_move z m).threefold_repetition = false := by
    rw [update_threefold, if_neg h3, hold]
  simp only [GameState.get_move_result]
  by_cases h50 : ((gs.update_board_with_move z m).half_move_number
      - (gs.update_board_with_move z m).half_move_of_last_capture) / 2 = 50
  · rw [if_pos h50]; decide
  · rw [if_neg h50, hf]
    split_ifs <;> simp_all

lemma counter_trace (z : ZobristHasher) :
    ∀ (ms : List Move) (gs : GameState) (k : Nat),
      (applyMoves z gs ms).position_occurance_counter k
        = gs.position_occurance_counter k
          + (traceStates z gs ms).countP (fun s => decide (s.pos_hash = k)) := by
  intro ms
  induction ms with
  | nil => intro gs k; simp [applyMoves, traceStates]
  | cons m ms ih =>
    intro gs k
    simp only [applyMoves, traceStates]
    rw [ih, List.countP_cons]
    simp only [update_counter]
    by_cases hk : k = (gs.update_board_with_move z m).pos_hash
    · subst hk
      simp
      omega
    · have hdf : decide ((gs.update_board_with_move z m).pos_hash = k) = false :=
        decide_eq_false fun h => hk h.symm
      rw [if_neg hk, hdf]
      simp

lemma traceStates_pos_hash (z : ZobristHasher) :
    ∀ (ms : List Move) (gs s : GameState),
      s ∈ traceStates z gs ms → s.pos_hash = z.hash s.board := by
  intro ms
  induction ms with
  | nil => intro gs s hs; simp [traceStates] at hs
  | cons m ms ih =>
    intro gs s hs
    simp only [traceStates] at hs
    rcases List.mem_cons.mp hs with he | hm
    · rw [he]; exact update_pos_hash z gs m
    · exact ih _ s hm

lemma counter_counts_boards (z : ZobristHasher) (gs0 : GameState) (ms : List Move) (B : Board)
    (h0 : ∀ k, gs0.position_occurance_counter k = 0)
    (hinj : ∀ s ∈ traceStates z gs0 ms, z.hash s.board = z.hash B → s.board = B) :
    (applyMoves z gs0 ms).position_occurance_counter (z.hash B)
      = (traceStates z gs0 ms).countP (fun s => decide (s.board = B)) := by
  rw [counter_trace z ms gs0 (z.hash B), h0, Nat.zero_add]
  apply List.countP_congr
  intro s hs
  have hph := traceStates_pos_hash z ms gs0 s hs
  rw [decide_eq_true_eq, decide_eq_true_eq]
  constructor
  · intro h; exact hinj s hs (hph ▸ h)
  · intro h; rw [hph, h]

lemma update_half (z : ZobristHasher) (gs : GameState) (m : Move) :
    (gs.update_board_with_move z m).half_move_number = gs.half_move_number + 1 := by
  simp only [GameState.update_board_with_move, GameState.update_occupation_boards]
  split_ifs <;> rfl

lemma update_hlc (z : ZobristHasher) (gs : GameState) (m : Move) :
    (gs.update_board_with_move z m).half_move_of_last_capture
      = if m.is_capture = true then gs.half_move_number + 1
        else gs.half_move_of_last_capture := by
  simp only [GameState.update_board_with_move, GameState.update_occupation_boards]
  split_ifs <;> rfl

lemma update_occupation_coherent (z : ZobristHasher) (gs : GameState) (m : Move) :
    occupationCoherent (gs.update_board_with_move z m) := by
  simp only [occupationCoherent, GameState.update_board_with_move,
    GameState.update_occupation_boards]
  split_ifs <;> exact ⟨rfl, rfl⟩

lemma undo_occupation_coherent (z : ZobristHasher) (gs : GameState) (m : Move)
    (crl crs : Bool × Bool) (hlc : Nat) :
    occupationCoherent (gs.update_board_undo_move z m crl crs hlc) := by
  simp only [occupationCoherent, GameState.update_board_undo_move,
    GameState.update_occupation_boards]
  split_ifs <;> exact ⟨rfl, rfl⟩

/-! ### Lemmas: the move generator reads only the board and the occupation
caches, so a coherent state generates the same moves as the bare board -/

lemma slider_moves_proj (mag : Magics) (gs gs' : GameState)
    (hc : gs.comp_occupation_board = gs'.comp_occupation_board) (piece : Piece)
    (square : Nat) :
    gs.slider_moves mag piece square = gs'.slider_moves mag piece square := by
  simp only [GameState.slider_moves, hc]

lemma pawn_moves_proj (gs gs' : GameState) (hb : gs.board = gs'.board)
    (ho : gs.occupation_boards = gs'.occupation_boards)
    (hc : gs.comp_occupation_board = gs'.comp_occupation_board) (square mb : Nat) :
    gs.pawn_moves square mb = gs'.pawn_moves square mb := by
  simp only [GameState.pawn_moves, hb, ho, hc]

lemma remove_friendly_proj (gs gs' : GameState) (hb : gs.board = gs'.board)
    (ho : gs.occupation_boards = gs'.occupation_boards) (mb : Nat) :
    gs.remove_friendly_moves mb = gs'.remove_friendly_moves mb := by
  simp only [GameState.remove_friendly_moves, hb, ho]

lemma gen_moves_bb_proj (gs gs' : GameState) (hb : gs.board = gs'.board)
    (hc : gs.comp_occupation_board = gs'.comp_occupation_board)
    (piece : Piece) (square mb : Nat) (ml : List Move) :
    gs.generate_moves_from_bb piece square mb ml
      = gs'.generate_moves_from_bb piece square mb ml := by
  simp only [GameState.generate_moves_from_bb, GameState.generate_promotion_moves, hb, hc]

lemma glm_mask_proj (mag : Magics) (gs gs' : GameState) (hb : gs.board = gs'.board)
    (ho : gs.occupation_boards = gs'.occupation_boards)
    (hc : gs.comp_occupation_board = gs'.comp_occupation_board)
    (piece : Piece) (ea : Nat) (pm : Nat → Nat) (ml : List Move) (mask : Nat) :
    gs.get_legal_moves_for_piece_with_mask mag piece ea pm ml mask
      = gs'.get_legal_moves_for_piece_with_mask mag piece ea pm ml mask := by
  simp only [GameState.get_legal_moves_for_piece_with_mask, hb,
    slider_moves_proj mag gs gs' hc, pawn_moves_proj gs gs' hb ho hc,
    remove_friendly_proj gs gs' hb ho, gen_moves_bb_proj gs gs' hb hc]

lemma checking_ray_proj (gs gs' : GameState) (hb : gs.board = gs'.board) (cs : Nat) :
    gs.get_checking_ray cs = gs'.get_checking_ray cs := by
  simp only [GameState.get_checking_ray, hb]

lemma pins_proj (gs gs' : GameState) (hb : gs.board = gs'.board)
    (ho : gs.occupation_boards = gs'.occupation_boards)
    (piece : Piece) (square kp : Nat) (pm : Nat → Nat) :
    gs.enemy_attacks_piece_pins piece square kp pm
      = gs'.enemy_attacks_piece_pins piece square kp pm := by
  simp only [GameState.enemy_attacks_piece_pins, hb, ho, checking_ray_proj gs gs' hb]

lemma enemy_attacks_proj (mag : Magics) (gs gs' : GameState) (hb : gs.board = gs'.board)
    (ho : gs.occupation_boards = gs'.occupation_boards)
    (hc : gs.comp_occupation_board = gs'.comp_occupation_board) :
    gs.enemy_attacks mag = gs'.enemy_attacks mag := by
  simp only [GameState.enemy_attacks, hb, slider_moves_proj mag gs gs' hc,
    pins_proj gs gs' hb ho]

lemma castling_proj (gs gs' : GameState) (hb : gs.board = gs'.board)
    (ho : gs.occupation_boards = gs'.occupation_boards) (ea : Nat) (ml : List Move) :
    gs.get_castling_moves ea ml = gs'.get_castling_moves ea ml := by
  simp only [GameState.get_castling_moves, hb, ho]

lemma get_legal_moves_proj (mag : Magics) (gs gs' : GameState) (hb : gs.board = gs'.board)
    (ho : gs.occupation_boards = gs'.occupation_boards)
    (hc : gs.comp_occupation_board = gs'.comp_occupation_board) :
    gs.get_legal_moves mag = gs'.get_legal_moves mag := by
  simp only [GameState.get_legal_moves, hb, enemy_attacks_proj mag gs gs' hb ho hc,
    glm_mask_proj mag gs gs' hb ho hc, checking_ray_proj gs gs' hb,
    castling_proj gs gs' hb ho]

lemma legal_moves_eq_from_board (mag : Magics) (gs : GameState)
    (h : occupationCoherent gs) :
    gs.get_legal_moves mag = (GameState.from_board gs.board).get_legal_moves mag :=
  get_legal_moves_proj mag gs _ rfl h.1 h.2

/-! ### Lemmas: trace bookkeeping in closed form (C3) -/

lemma applyMoves_half (z : ZobristHasher) :
    ∀ (ms : List Move) (gs : GameState),
      (applyMoves z gs ms).half_move_number = gs.half_move_number + ms.length := by
  intro ms
  induction ms with
  | nil => intro gs; simp [applyMoves]
  | cons m ms ih =>
    intro gs
    simp only [applyMoves, List.length_cons]
    rw [ih, update_half]
    omega

lemma applyMoves_hlc (z : ZobristHasher) :
    ∀ (ms : List Move) (gs : GameState), (∀ m ∈ ms, m.is_capture = false) →
      (applyMoves z gs ms).half_move_of_last_capture = gs.half_move_of_last_capture := by
  intro ms
  induction ms with
  | nil => intro gs _; rfl
  | cons m ms ih =>
    intro gs h
    simp only [applyMoves]
    rw [ih _ (fun x hx => h x (List.mem_cons_of_mem m hx)), update_hlc,
      if_neg (by rw [h m (List.mem_cons_self m ms)]; decide)]

lemma applyMoves_mem_trace (z : ZobristHasher) :
    ∀ (ms : List Move) (gs : GameState), ms ≠ [] →
      applyMoves z gs ms ∈ traceStates z gs ms := by
  intro ms
  induction ms with
  | nil => intro gs h; exact absurd rfl h
  | cons m ms ih =>
    intro gs _
    simp only [applyMoves, traceStates]
    rcases ms with _ | ⟨m2, ms2⟩
    · simp [applyMoves]
    · exact List.mem_cons_of_mem _ (ih _ (by simp))

lemma traceStates_boards (z : ZobristHasher) :
    ∀ (ms : List Move) (gs : GameState),
      (traceStates z gs ms).map GameState.board = boardTrace gs.board ms := by
  intro ms
  induction ms with
  | nil => intro gs; rfl
  | cons m ms ih =>
    intro gs
    simp only [traceStates, boardTrace, List.map_cons]
    rw [ih, update_board_eq]

lemma applyMoves_board_flat (z : ZobristHasher) (f : Nat → Board) (mv : Nat → Move) :
    ∀ (n i : Nat) (gs : GameState), gs.board = f i →
      (∀ k, i ≤ k → k < i + n →
        { (f k).make_move (mv k) with
          side_to_move := ((f k).make_move (mv k)).side_to_move.opposite } = f (k + 1)) →
      (applyMoves z gs ((List.range' i n).map mv)).board = f (i + n) := by
  intro n
  induction n with
  | zero => intro i gs hb _; simpa [applyMoves] using hb
  | succ n ih =>
    intro i gs hb hstep
    have hr : List.range' i (n + 1) = i :: List.range' (i + 1) n := rfl
    rw [hr, List.map_cons]
    simp only [applyMoves]
    have h1 : (gs.update_board_with_move z (mv i)).board = f (i + 1) := by
      rw [update_board_eq, hb]
      exact hstep i (Nat.le_refl i) (by omega)
    have h2 : ∀ k, i + 1 ≤ k → k < (i + 1) + n →
        { (f k).make_move (mv k) with
          side_to_move := ((f k).make_move (mv k)).side_to_move.opposite } = f (k + 1) :=
      fun k hk1 hk2 => hstep k (by omega) (by omega)
    have := ih (i + 1) _ h1 h2
    rw [show i + (n + 1) = (i + 1) + n by omega]
    exact this

lemma applyMoves_coherent (z : ZobristHasher) :
    ∀ (ms : List Move) (gs : GameState), occupationCoherent gs →
      occupationCoherent (applyMoves z gs ms) := by
  intro ms
  induction ms with
  | nil => intro gs h; exact h
  | cons m ms ih =>
    intro gs _
    simp only [applyMoves]
    exact ih _ (update_occupation_coherent z gs m)

lemma legalTrace_of_flat (z : ZobristHasher) (mag : Magics) (f : Nat → Board)
    (mv : Nat → Move) :
    ∀ (n i : Nat) (gs : GameState), occupationCoherent gs → gs.board = f i →
      (∀ k, i ≤ k → k < i + n →
        ((GameState.from_board (f k)).get_legal_moves mag).1.contains (mv k) = true) →
      (∀ k, i ≤ k → k < i + n →
        { (f k).make_move (mv k) with
          side_to_move := ((f k).make_move (mv k)).side_to_move.opposite } = f (k + 1)) →
      legalTrace z mag gs ((List.range' i n).map mv) = true := by
  intro n
  induction n with
  | zero => intro i gs _ _ _ _; rfl
  | succ n ih =>
    intro i gs hcoh hb hleg hstep
    have hr : List.range' i (n + 1) = i :: List.range' (i + 1) n := rfl
    rw [hr, List.map_cons]
    simp only [legalTrace]
    rw [Bool.and_eq_true]
    constructor
    · rw [legal_moves_eq_from_board mag gs hcoh, hb]
      exact hleg i (Nat.le_refl i) (by omega)
    · have h1 : (gs.update_board_with_move z (mv i)).board = f (i + 1) := by
        rw [update_board_eq, hb]
        exact hstep i (Nat.le_refl i) (by omega)
      exact ih (i + 1) _ (update_occupation_coherent z gs (mv i)) h1
        (fun k hk1 hk2 => hleg k (by omega) (by omega))
        (fun k hk1 hk2 => hstep k (by omega) (by omega))

/-! ### The claims -/

/-- C2: with the pre-computed magics, for every square and every subset of
that square's blocker mask the table lookup (`get_rook_moves` /
`get_bishop_moves` over the tables `init_move_table` populates) equals the
slow ray-walking attack computation, and the multiply-shift magic index is
collision-free (injective) on the mask's subsets. -/
theorem C2_magic_lookup_correct (sq b b1 b2 : Nat) (hsq : sq < 64) :
    (Nat.land b (rook_masks sq) = b → get_rook_moves sq b = get_rook_rays sq b)
    ∧ (Nat.land b (bishop_masks sq) = b → get_bishop_moves sq b = get_bishop_rays sq b)
    ∧ (Nat.land b1 (rook_masks sq) = b1 → Nat.land b2 (rook_masks sq) = b2 →
        magic_index (rookMagic sq) b1 (rookBits sq)
          = magic_index (rookMagic sq) b2 (rookBits sq) → b1 = b2)
    ∧ (Nat.land b1 (bishop_masks sq) = b1 → Nat.land b2 (bishop_masks sq) = b2 →
        magic_index (bishopMagic sq) b1 (bishopBits sq)
          = magic_index (bishopMagic sq) b2 (bishopBits sq) → b1 = b2) :=
  ⟨get_rook_moves_eq_rays sq b hsq, get_bishop_moves_eq_rays sq b hsq,
   magic_index_inj_rook sq b1 b2 hsq, magic_index_inj_bishop sq b1 b2 hsq⟩

/-- C2 witness: the table lookup agrees with the ray walk at square 0 with
no blockers (rook) and at square 27 with no blockers (bishop). -/
theorem C2_magic_lookup_correct_witness :
    get_rook_moves 0 0 = get_rook_rays 0 0 ∧ get_bishop_moves 27 0 = get_bishop_rays 27 0 :=
  ⟨(C2_magic_lookup_correct 0 0 0 0 (by decide)).1 (by decide),
   (C2_magic_lookup_correct 27 0 0 0 (by decide)).2.1 (by decide)⟩

/-- C4: counterexample to the claim that capturing an opponent rook on its
original corner clears that side's castling right.  From `c4Board` the
White knight's capture of the Black rook on h8 (square 56, Black's
short-castling corner) is generated as a legal move, the rook disappears,
and Black's short castling right remains set after `make_move`. -/
theorem C4_rook_capture_keeps_right :
    ((GameState.from_board c4Board).get_legal_moves precompMagics).1.contains c4Move = true
    ∧ sideGet c4Board.castling_right_short .Black = true
    ∧ c4Move.to_square = ROOK_SHORT_SQUARES .Black
    ∧ (c4Board.make_move c4Move).bb .Rook .Black = 0
    ∧ sideGet (c4Board.make_move c4Move).castling_right_short .Black = true := by
  refine ⟨?_, by decide, by decide, by decide, by decide⟩
  rw [get_legal_moves_oracle _ (boardWF_lt (by decide))]
  decide

/-- C5: counterexample to the claim that a castling move is emitted only
when the squares between king and rook are unoccupied.  In `c5Board` a
Black knight stands on square 2, between the White king (square 3) and
rook (square 0); White is not in check, yet `get_legal_moves` emits the
short castle. -/
theorem C5_castles_through_occupied_square :
    Nat.land (GameState.from_board c5Board).comp_occupation_board
        (SHORT_CASTLE_MASKS .White) ≠ 0
    ∧ ((GameState.from_board c5Board).get_legal_moves precompMagics).2 = false
    ∧ ((GameState.from_board c5Board).get_legal_moves precompMagics).1.contains
        ⟨0, 0, .CastleShort, .King, .White⟩ = true := by
  refine ⟨by decide, ?_, ?_⟩ <;>
    (rw [get_legal_moves_oracle _ (boardWF_lt (by decide))]; decide)

/-- C7: counterexample to the claim that killer moves score strictly below
every capture: a quiet move sitting in killer slot 0 receives priority
`MVV_LVA_OFFSET - 10 = 4294967029`, far above every capture's MVV-LVA
score (at most 60), because the offset is never added to capture scores. -/
theorem C7_killer_scores_above_captures (kl : Nat → Nat → Move) (ply : Nat) (m c : Move)
    (hq : m.move_type = .Quiet) (hk : m = kl 0 ply) (hc : c.is_capture = true) :
    Move.prio c ply kl < Move.prio m ply kl := by
  have hm : Move.prio m ply kl = 4294967029 := by
    simp [Move.prio, hq, ← hk, MVV_LVA_OFFSET, KILLER_SCORE,
      show List.range MAX_KILLER_MOVES = [0, 1] from rfl]
  have hcb := prio_capture_le c ply kl hc
  omega

/-- C7 witness: a concrete quiet knight move in killer slot 0 outranks a
concrete pawn-takes-queen capture. -/
theorem C7_killer_scores_above_captures_witness :
    Move.prio ⟨10, 20, .Capture .Queen, .Pawn, .White⟩ 0
        (fun _ _ => ⟨1, 18, .Quiet, .Knight, .White⟩)
      < Move.prio ⟨1, 18, .Quiet, .Knight, .White⟩ 0
        (fun _ _ => ⟨1, 18, .Quiet, .Knight, .White⟩) :=
  C7_killer_scores_above_captures (fun _ _ => ⟨1, 18, .Quiet, .Knight, .White⟩) 0
    ⟨1, 18, .Quiet, .Knight, .White⟩ ⟨10, 20, .Capture .Queen, .Pawn, .White⟩
    rfl rfl rfl

/-- C8: counterexample to the claim that the en-passant 0-sentinel is safe:
with no EP target (`en_passant_square = 0`), the Black pawn on square 9 is
given a "capture" onto the empty square 0 (bit 0 is set by
`1 << en_passant_square`), which the generator emits as a quiet promotion
to square 0 even though square 0 is unoccupied and no pawn push or capture
reaches it. -/
theorem C8_ep_sentinel_emits_bogus_move :
    c8Board.en_passant_square = 0
    ∧ Nat.land (GameState.from_board c8Board).comp_occupation_board (1 <<< 0) = 0
    ∧ ((GameState.from_board c8Board).get_legal_moves precompMagics).1.contains c8Move = true
    ∧ c8Move.is_capture = false := by
  exact ⟨by decide, by decide, by decide, by decide⟩

/-- C9: after both `GameState` constructors and after every make and undo,
the cached per-side occupation boards equal the OR of that side's piece
bitboards and the composite occupation equals the OR of both. -/
theorem C9_occupation_cache_coherent (z : ZobristHasher) (b : Board) (gs : GameState)
    (m : Move) (crl crs : Bool × Bool) (hlc : Nat) :
    occupationCoherent (GameState.from_board b)
    ∧ occupationCoherent GameState.new
    ∧ occupationCoherent (gs.update_board_with_move z m)
    ∧ occupationCoherent (gs.update_board_undo_move z m crl crs hlc) :=
  ⟨⟨rfl, rfl⟩, ⟨rfl, rfl⟩, update_occupation_coherent z gs m,
   undo_occupation_coherent z gs m crl crs hlc⟩

/-- C10: castling rights are monotone under `Board::make_move`: no right
ever turns from false to true. -/
theorem C10_castling_rights_monotone (b : Board) (m : Move) (s : Side) :
    (sideGet (b.make_move m).castling_right_short s = true →
      sideGet b.castling_right_short s = true)
    ∧ (sideGet (b.make_move m).castling_right_long s = true →
      sideGet b.castling_right_long s = true) := by
  constructor
  · intro h
    rw [make_move_crs] at h
    have h2 := ucr_mono_short (b.update_en_passant_flag m) m s h
    rw [uepf_crs] at h2
    exact h2
  · intro h
    rw [make_move_crl] at h
    have h2 := ucr_mono_long (b.update_en_passant_flag m) m s h
    rw [uepf_crl] at h2
    exact h2

/-- C10 witness: a quiet knight move from the start position leaves White's
short right set, as the monotonicity theorem demands. -/
theorem C10_castling_rights_monotone_witness :
    sideGet Board.start.castling_right_short .White = true :=
  (C10_castling_rights_monotone Board.start ⟨1, 18, .Quiet, .Knight, .White⟩ .White).1
    (by decide)

/-- C1: counterexample to the make/undo round trip.  From the start
position, after White's double push 8 to 24 the en-passant square is 16;
Black's quiet reply 48 to 40 is legal; undoing that reply with the
caller-saved scalars leaves the en-passant square 0 (undo always resets it
except for en-passant captures), so the position is not bitwise-equal to
the pre-move position and its Zobrist key differs. -/
theorem C1_make_undo_loses_ep :
    (GameState.new.get_legal_moves precompMagics).1.contains
        ⟨8, 24, .Quiet, .Pawn, .White⟩ = true
    ∧ (c1G1.get_legal_moves precompMagics).1.contains c1M2 = true
    ∧ c1G1.board.en_passant_square = 16
    ∧ c1G3.board.en_passant_square = 0
    ∧ c1G3.board ≠ c1G1.board
    ∧ c1G3.pos_hash ≠ c1G1.pos_hash := by
  refine ⟨?_, ?_, by decide, by decide, by decide, by decide⟩
  · rw [get_legal_moves_oracle _ (boardWF_lt (by decide))]; decide
  · rw [get_legal_moves_oracle _ (boardWF_lt (by decide))]; decide

/-- C3 (corrected): the make that raises a position key's occurrence count
to 3 yields `Draw(ThreeFoldRepetition)` from `get_move_result` provided the
fifty-move test (checked first) does not fire at that same make; it never
yields it earlier; the occurrence count equals the number of times the
configuration appeared when the hash is injective on the trace; and undo
decrements the undone key's count and clears the sticky flag. -/
theorem C3_threefold_counting (z : ZobristHasher) (gs gs0 : GameState) (m : Move)
    (lm : List Move) (ic : Bool) (ms : List Move) (B : Board)
    (crl crs : Bool × Bool) (hlc : Nat) :
    (gs.position_occurance_counter ((gs.update_board_with_move z m).pos_hash) + 1 = 3 →
      ((gs.update_board_with_move z m).half_move_number
          - (gs.update_board_with_move z m).half_move_of_last_capture) / 2 ≠ 50 →
      (gs.update_board_with_move z m).get_move_result lm ic
        = some (.Draw .ThreeFoldRepetition))
    ∧ (gs.threefold_repetition = false →
        gs.position_occurance_counter ((gs.update_board_with_move z m).pos_hash) + 1 ≠ 3 →
        (gs.update_board_with_move z m).get_move_result lm ic
          ≠ some (.Draw .ThreeFoldRepetition))
    ∧ ((∀ k, gs0.position_occurance_counter k = 0) →
        (∀ s ∈ traceStates z gs0 ms, z.hash s.board = z.hash B → s.board = B) →
        (applyMoves z gs0 ms).position_occurance_counter (z.hash B)
          = (traceStates z gs0 ms).countP (fun s => decide (s.board = B)))
    ∧ (gs.update_board_undo_move z m crl crs hlc).position_occurance_counter gs.pos_hash
        = gs.position_occurance_counter gs.pos_hash - 1
    ∧ (gs.update_board_undo_move z m crl crs hlc).threefold_repetition = false := by
  refine ⟨threefold_after_third z gs m lm ic, no_threefold_before z gs m lm ic,
    counter_counts_boards z gs0 ms B, ?_, undo_threefold z gs m crl crs hlc⟩
  rw [undo_counter]
  simp

/-- C3 witness: the queen-shuttle game.  The 12th half-move produces the
third occurrence of the initial configuration, the fifty-move count is 6,
and `get_move_result` returns the threefold draw; the occurrence counter
after 12 half-moves equals the number of appearances of that
configuration on the trace. -/
theorem C3_threefold_counting_witness :
    GameState.get_move_result
        (GameState.update_board_with_move basisHasher
          (applyMoves basisHasher (GameState.from_board c3WitnessBoard) (c3WitnessMoves 11))
          ⟨62, 63, .Quiet, .Queen, .Black⟩)
        [] false = some (.Draw .ThreeFoldRepetition)
    ∧ GameState.position_occurance_counter
        (applyMoves basisHasher (GameState.from_board c3WitnessBoard) (c3WitnessMoves 12))
        (basisHasher.hash c3WitnessBoard)
      = (traceStates basisHasher (GameState.from_board c3WitnessBoard)
          (c3WitnessMoves 12)).countP (fun s => decide (s.board = c3WitnessBoard)) := by
  have h := C3_threefold_counting basisHasher
    (applyMoves basisHasher (GameState.from_board c3WitnessBoard) (c3WitnessMoves 11))
    (GameState.from_board c3WitnessBoard) ⟨62, 63, .Quiet, .Queen, .Black⟩ [] false
    (c3WitnessMoves 12) c3WitnessBoard (false, false) (false, false) 0
  exact ⟨h.1 (by decide) (by decide), h.2.2.1 (fun k => rfl) (by decide)⟩

set_option maxHeartbeats 100000000 in
/-- C3 counterexample to the original wording: a legal kings-only game in
which the 99th half-move produces the third occurrence of a position
(occurrence count 3, and the configuration indeed appears three times on
the trace), yet `get_move_result` returns the fifty-move draw, which is
checked before the threefold flag. -/
theorem C3_fifty_preempts_threefold :
    legalTrace basisHasher precompMagics (GameState.from_board c3Board) c3Moves = true
    ∧ ((List.range 99).countP fun k => decide (c3BoardAt (k + 1) = c3BoardAt 99)) = 3
    ∧ c3Final.position_occurance_counter c3Final.pos_hash = 3
    ∧ c3Final.get_move_result (c3Final.get_legal_moves precompMagics).1
        (c3Final.get_legal_moves precompMagics).2 = some (.Draw .FiftyMoveRule) := by
  have hall : ((List.range 99).all fun k =>
      ((GameState.from_board (c3BoardAt k)).get_legal_moves precompMagics).1.contains
        (c3MoveAt k)) = true := by decide
  have hstepall : ((List.range 99).all fun k =>
      decide ({ (c3BoardAt k).make_move (c3MoveAt k) with
          side_to_move := ((c3BoardAt k).make_move (c3MoveAt k)).side_to_move.opposite }
        = c3BoardAt (k + 1))) = true := by decide
  have hleg : ∀ k, 0 ≤ k → k < 0 + 99 →
      ((GameState.from_board (c3BoardAt k)).get_legal_moves precompMagics).1.contains
        (c3MoveAt k) = true :=
    fun k _ hk => List.all_eq_true.mp hall k (List.mem_range.mpr (by omega))
  have hstep : ∀ k, 0 ≤ k → k < 0 + 99 →
      { (c3BoardAt k).make_move (c3MoveAt k) with
        side_to_move := ((c3BoardAt k).make_move (c3MoveAt k)).side_to_move.opposite }
        = c3BoardAt (k + 1) :=
    fun k _ hk => of_decide_eq_true
      (List.all_eq_true.mp hstepall k (List.mem_range.mpr (by omega)))
  have hcoh0 : occupationCoherent (GameState.from_board c3Board) := ⟨rfl, rfl⟩
  have hb0 : (GameState.from_board c3Board).board = c3BoardAt 0 := by decide
  have hmoves : c3Moves = (List.range' 0 99).map c3MoveAt := by
    rw [c3Moves, List.range_eq_range']
  have hboard : c3Final.board = c3BoardAt 99 := by
    simp only [c3Final]
    rw [hmoves]
    exact applyMoves_board_flat basisHasher c3BoardAt c3MoveAt 99 0 _ hb0 hstep
  refine ⟨?_, by decide, ?_, ?_⟩
  · rw [hmoves]
    exact legalTrace_of_flat basisHasher precompMagics c3BoardAt c3MoveAt 99 0 _
      hcoh0 hb0 hleg hstep
  · have hne : c3Moves ≠ [] := by rw [hmoves]; decide
    have hmem := applyMoves_mem_trace basisHasher c3Moves (GameState.from_board c3Board) hne
    have hph : c3Final.pos_hash = basisHasher.hash (c3BoardAt 99) := by
      have h := traceStates_pos_hash basisHasher c3Moves (GameState.from_board c3Board)
        c3Final hmem
      rw [hboard] at h
      exact h
    rw [hph]
    show GameState.position_occurance_counter
        (applyMoves basisHasher (GameState.from_board c3Board) c3Moves)
        (basisHasher.hash (c3BoardAt 99)) = 3
    rw [counter_trace basisHasher c3Moves (GameState.from_board c3Board)
      (basisHasher.hash (c3BoardAt 99))]
    have hcong : (traceStates basisHasher (GameState.from_board c3Board) c3Moves).countP
        (fun s => decide (s.pos_hash = basisHasher.hash (c3BoardAt 99)))
        = (traceStates basisHasher (GameState.from_board c3Board) c3Moves).countP
            (fun s => decide (basisHasher.hash s.board = basisHasher.hash (c3BoardAt 99))) :=
      List.countP_congr fun s hs => by
        rw [traceStates_pos_hash basisHasher c3Moves (GameState.from_board c3Board) s hs]
    rw [hcong]
    have hmapeq : (traceStates basisHasher (GameState.from_board c3Board) c3Moves).countP
        (fun s => decide (basisHasher.hash s.board = basisHasher.hash (c3BoardAt 99)))
        = ((traceStates basisHasher (GameState.from_board c3Board) c3Moves).map
            GameState.board).countP
            (fun b => decide (basisHasher.hash b = basisHasher.hash (c3BoardAt 99))) := by
      rw [List.countP_map]
      rfl
    rw [hmapeq, traceStates_boards]
    decide
  · show GameState.get_move_result
        (applyMoves basisHasher (GameState.from_board c3Board) c3Moves) _ _
      = some (.Draw .FiftyMoveRule)
    have h50 : (GameState.half_move_number
          (applyMoves basisHasher (GameState.from_board c3Board) c3Moves)
        - GameState.half_move_of_last_capture
            (applyMoves basisHasher (GameState.from_board c3Board) c3Moves)) / 2 = 50 := by
      rw [applyMoves_half, applyMoves_hlc basisHasher c3Moves _ (by decide)]
      rw [show (GameState.from_board c3Board).half_move_number = 1 from rfl,
        show (GameState.from_board c3Board).half_move_of_last_capture = 0 from rfl,
        show c3Moves.length = 99 by rw [c3Moves, List.length_map, List.length_range]]
    simp only [GameState.get_move_result]
    rw [if_pos h50]

/-- C6 (corrected): when `get_move_result` reports checkmate, `qsearch`
returns the constant -2000 for White to move and +2000 for Black to move
(no ply term); when it reports any draw, `qsearch` returns 0; and interior
`minimax` nodes with an empty legal-move list fall through the loop and
return the `f64::MIN` / `f64::MAX` fold sentinels, not a mate or draw
score. -/
theorem C6_terminal_scores (env : SearchEnv) (fuel : Nat) (game : GameState)
    (legal_moves : List Move) (max_depth depth : Nat) (in_check : Bool)
    (alpha beta : Int) (r : DrawReason) :
    (game.get_move_result legal_moves in_check = some .Checkmate →
      (SearchAsync.qsearch env (fuel+1) game legal_moves max_depth depth in_check
          alpha beta).1
        = if game.board.side_to_move = .White then -2000 else 2000)
    ∧ (game.get_move_result legal_moves in_check = some (.Draw r) →
      (SearchAsync.qsearch env (fuel+1) game legal_moves max_depth depth in_check
          alpha beta).1 = 0)
    ∧ (depth < (if in_check = true then max_depth + 1 else max_depth) →
      (SearchAsync.minimax env (fuel+1) game [] max_depth depth in_check alpha beta).1
        = if game.board.side_to_move = .White then F64_MIN else F64_MAX) := by
  refine ⟨?_, ?_, ?_⟩
  · intro hmr
    simp only [SearchAsync.qsearch, hmr]
    split_ifs <;> simp_all
  · intro hmr
    simp only [SearchAsync.qsearch, hmr]
    split_ifs <;> simp_all
  · intro hd
    simp only [SearchAsync.minimax]
    rw [if_neg (not_le.mpr hd)]
    split_ifs <;> rfl

/-- C6 witness: in the mated position (Black to move) `qsearch` returns
2000; in the stalemate position an interior `minimax` node with no moves
returns `f64::MAX`. -/
theorem C6_terminal_scores_witness :
    (SearchAsync.qsearch c6Env 1 (GameState.from_board c6MateBoard) [] 1 1 true
        F64_MIN F64_MAX).1 = 2000
    ∧ (SearchAsync.minimax c6Env 1 (GameState.from_board c6StaleBoard) [] 5 1 false
        F64_MIN F64_MAX).1 = F64_MAX := by
  have h1 := C6_terminal_scores c6Env 0 (GameState.from_board c6MateBoard) [] 1 1 true
    F64_MIN F64_MAX .Stalemate
  have h2 := C6_terminal_scores c6Env 0 (GameState.from_board c6StaleBoard) [] 5 1 false
    F64_MIN F64_MAX .Stalemate
  constructor
  · have := h1.1 (by decide)
    simpa using this
  · have := h2.2.2 (by decide)
    simpa using this

/-- C6 counterexample to the original wording: the mate score is the
constant 2000 at two different plies (no `-MATE + ply` shaping, so
shallower mates do not score higher), and a stalemate reached at an
interior minimax node scores `f64::MAX`, not 0. -/
theorem C6_no_ply_adjusted_mate_scores :
    (GameState.from_board c6MateBoard).get_legal_moves precompMagics = ([], true)
    ∧ (SearchAsync.qsearch c6Env 1 (GameState.from_board c6MateBoard) [] 1 1 true
        F64_MIN F64_MAX).1 = 2000
    ∧ (SearchAsync.qsearch c6Env 3 (GameState.from_board c6MateBoard) [] 7 3 true
        F64_MIN F64_MAX).1 = 2000
    ∧ (GameState.from_board c6StaleBoard).get_legal_moves precompMagics = ([], false)
    ∧ (SearchAsync.minimax c6Env 2 (GameState.from_board c6StaleBoard) [] 5 1 false
        F64_MIN F64_MAX).1 = F64_MAX
    ∧ F64_MAX ≠ 0 := by
  refine ⟨?_, by decide, by decide, ?_, by decide, by decide⟩ <;>
    (rw [get_legal_moves_oracle _ (boardWF_lt (by decide))]; decide)

end Pawndropper
